import Mathlib

/-!
# go-simple-speedtest: a verification development of `main.go`

The program downloads one file, measures the elapsed wall-clock time and appends
one CSV row to `speedtest.csv`.

Modelling conventions

* Go `int` is the 64-bit signed integer of the usual build targets; values are
  `Int`. The one place where an `int64` subtraction could leave the range is
  wrapped explicitly (`wrapInt64`), and the conversion to `float64` reads an
  `Int` outside the range, which no Go value is, as the nearest bound.
* Go `float64` is the type `F64`: a finite value is held as the rational number it
  denotes, next to the IEEE-754 special values `-0`, `+Inf`, `-Inf` and `NaN`.
  Conversion from `int`, division and multiplication round their exact result to
  the nearest binary64 value, ties to even (`F64.round`).
* Go `string` is a list of characters (`List Char`).
* The outside world (clock, HTTP exchange, file system calls) is passed in as
  explicit outcome records; the file system and standard output are an
  explicit state.
-/

namespace SpeedTest

/-! ## float64 -/

/-- Values of Go's `float64`: a finite value carries its exact rational value. -/
inductive F64 where
  | fin (q : ℚ)
  | negZero
  | posInf
  | negInf
  | nan
  deriving DecidableEq

/-- Rounding of a non-negative rational to the nearest natural number, ties to even. -/
def roundHalfEven (q : ℚ) : Nat :=
  let n := q.num.natAbs
  let d := q.den
  let a := n / d
  let r := n % d
  if 2 * r < d then a
  else if d < 2 * r then a + 1
  else if a % 2 = 0 then a else a + 1

/-- Floor of the binary logarithm by repeated halving; `fuel` bounds the number of steps. -/
def log2Fuel : Nat → Nat → Nat
  | 0, _ => 0
  | fuel + 1, n => if n < 2 then 0 else log2Fuel fuel (n / 2) + 1

/-- Floor of the binary logarithm of a positive natural number. -/
def floorLog2 (n : Nat) : Nat := log2Fuel n n

/-- The power of two `2 ^ e` for an integer exponent. -/
def pow2 (e : Int) : ℚ :=
  if 0 ≤ e then ((2 ^ e.toNat : Nat) : ℚ) else (((2 ^ (-e).toNat : Nat) : ℚ))⁻¹

/-- The binary exponent of a positive rational: the `e` with `2 ^ e ≤ a < 2 ^ (e + 1)`. -/
def binExp (a : ℚ) : Int :=
  let e0 : Int := (floorLog2 a.num.natAbs : Int) - (floorLog2 a.den : Int)
  if pow2 e0 ≤ a then e0 else e0 - 1

/-- Rounding of a positive rational to the nearest binary64 magnitude, ties to even:
53 significant bits, exponents from -1022 (below which the spacing stays `2 ^ -1074`)
to 1023; `none` when the rounded magnitude reaches `2 ^ 1024`. -/
def roundMagnitude (a : ℚ) : Option ℚ :=
  let e := max (binExp a) (-1022)
  let ulp := pow2 (e - 52)
  let m := roundHalfEven (a / ulp)
  if 1023 < e ∨ (e = 1023 ∧ m = 9007199254740992) then none else some ((m : ℚ) * ulp)

/-- Saturation of an integer to the range of `int64`. Go's `int` holds no value outside
this range; an `Int` outside it is read as the nearest bound. -/
def clampInt64 (n : Int) : Int := max (-9223372036854775808) (min n 9223372036854775807)

namespace F64

def isNaN : F64 → Bool
  | nan => true
  | _ => false

def isInf : F64 → Bool
  | posInf => true
  | negInf => true
  | _ => false

/-- Either of the two zeros. -/
def isZero : F64 → Bool
  | fin q => decide (q = 0)
  | negZero => true
  | _ => false

/-- The sign bit. -/
def signBit : F64 → Bool
  | fin q => decide (q < 0)
  | negZero => true
  | negInf => true
  | _ => false

/-- The rational value of a finite float (0 for the special values). -/
def toRat : F64 → ℚ
  | fin q => q
  | _ => 0

/-- Zero with the given sign bit. -/
def zero (neg : Bool) : F64 := if neg then negZero else fin 0

/-- Infinity with the given sign bit. -/
def inf (neg : Bool) : F64 := if neg then negInf else posInf

/-- The binary64 nearest to a rational (round to nearest, ties to even): overflow gives
an infinity and underflow a zero, both with the sign of the argument. -/
def round (a : ℚ) : F64 :=
  if a = 0 then fin 0
  else
    match roundMagnitude |a| with
    | none => inf (decide (a < 0))
    | some v => if v = 0 then zero (decide (a < 0)) else fin (if a < 0 then -v else v)

/-- Conversion `float64(n)` of an `int`: the nearest binary64. The argument is read
through `clampInt64`, which changes nothing in the range of Go's `int`. -/
def ofInt (n : Int) : F64 := round ((clampInt64 n : Int) : ℚ)

/-- IEEE-754 division `x / y`: the exact quotient, rounded. -/
def div (x y : F64) : F64 :=
  if x.isNaN || y.isNaN then nan
  else
    let s := xor x.signBit y.signBit
    if x.isInf then (if y.isInf then nan else inf s)
    else if y.isInf then zero s
    else if y.isZero then (if x.isZero then nan else inf s)
    else if x.isZero then zero s
    else round (x.toRat / y.toRat)

/-- IEEE-754 multiplication `x * y`: the exact product, rounded. -/
def mul (x y : F64) : F64 :=
  if x.isNaN || y.isNaN then nan
  else
    let s := xor x.signBit y.signBit
    if x.isInf then (if y.isZero then nan else inf s)
    else if y.isInf then (if x.isZero then nan else inf s)
    else if x.isZero || y.isZero then zero s
    else round (x.toRat * y.toRat)

/-- The comparison `x < y` of Go (false as soon as one side is NaN). -/
def lt (x y : F64) : Bool :=
  match x, y with
  | nan, _ => false
  | _, nan => false
  | posInf, _ => false
  | _, negInf => false
  | negInf, _ => true
  | _, posInf => true
  | a, b => decide (a.toRat < b.toRat)

end F64

/-! ## Data model -/

/-- The broken-down wall-clock time held by a `time.Time`, as `Format` sees it. -/
structure Time where
  year : Int
  month : Nat
  day : Nat
  hour : Nat
  minute : Nat
  second : Nat
  deriving DecidableEq, Repr

/-- The record `speedTestData` of one download. -/
structure speedTestData where
  URL : String
  Bytes : Int
  Milliseconds : Int
  Date : Time
  deriving DecidableEq

/-- The constant `fileURL`. -/
def fileURL : String := "http://ipv4.download.thinkbroadband.com/100MB.zip"

/-- The zero value of `time.Time`. -/
def Time.zero : Time := ⟨1, 1, 1, 0, 0, 0⟩

/-! ## Unit conversion -/

/-- `getSeconds`: `float64(data.Milliseconds) / 1000`. -/
def getSeconds (data : speedTestData) : F64 :=
  F64.div (F64.ofInt data.Milliseconds) (F64.ofInt 1000)

/-- `getMegabytes`: `float64(data.Bytes) / 1048576`. -/
def getMegabytes (data : speedTestData) : F64 :=
  F64.div (F64.ofInt data.Bytes) (F64.ofInt 1048576)

/-- `getMegabits`: `(float64(data.Bytes) / 1048576) * 8`. -/
def getMegabits (data : speedTestData) : F64 :=
  F64.mul (F64.div (F64.ofInt data.Bytes) (F64.ofInt 1048576)) (F64.ofInt 8)

/-- `getMegabitsPerSecond`: `getMegabits(data) / getSeconds(data)`. -/
def getMegabitsPerSecond (data : speedTestData) : F64 :=
  F64.div (getMegabits data) (getSeconds data)

/-- `getMegabytesPerSecond`: `getMegabytes(data) / getSeconds(data)`. -/
def getMegabytesPerSecond (data : speedTestData) : F64 :=
  F64.div (getMegabytes data) (getSeconds data)

/-! ## Text formatting (Go standard library) -/

/-- Decimal digits of a natural number, most significant first (`"0"` for 0). -/
def decimal (n : Nat) : List Char := Nat.toDigits 10 n

/-- `strconv.Itoa`: decimal rendering with a leading `-` for negative numbers. -/
def Itoa (n : Int) : List Char :=
  if n < 0 then '-' :: decimal n.natAbs else decimal n.natAbs

/-- Left padding with `'0'` up to `width` characters. -/
def zeroPad (width : Nat) (s : List Char) : List Char :=
  List.replicate (width - s.length) '0' ++ s

/-- The helper `appendInt` of package `time`: sign, then the zero-padded magnitude. -/
def appendInt (x : Int) (width : Nat) : List Char :=
  (if x < 0 then ['-'] else []) ++ zeroPad width (decimal x.natAbs)

/-- `Time.Format("2006-01-02 15:04:05")`. -/
def Time.Format (t : Time) : List Char :=
  appendInt t.year 4 ++ ['-'] ++ appendInt t.month 2 ++ ['-'] ++ appendInt t.day 2 ++ [' ']
    ++ appendInt t.hour 2 ++ [':'] ++ appendInt t.minute 2 ++ [':'] ++ appendInt t.second 2

/-- `strconv.FormatFloat(x, 'f', 2, 64)`: fixed-point text with two decimals;
the special values print as `NaN`, `+Inf` and `-Inf`. -/
def FormatFloat (x : F64) : List Char :=
  match x with
  | F64.nan => ['N', 'a', 'N']
  | F64.posInf => ['+', 'I', 'n', 'f']
  | F64.negInf => ['-', 'I', 'n', 'f']
  | F64.negZero => ['-', '0', '.', '0', '0']
  | F64.fin q =>
    let n := roundHalfEven (|q| * 100)
    (if q < 0 then ['-'] else []) ++ decimal (n / 100) ++ ['.'] ++ zeroPad 2 (decimal (n % 100))

/-! ## The CSV row -/

/-- The text accumulated in `dataText` by `writeData`, one `WriteString` per line. -/
def dataText (data : speedTestData) : List Char :=
  let b : List Char := []
  let b := b ++ (data.Date.Format ++ [','])
  let b := b ++ (Itoa data.Bytes ++ [','])
  let b := b ++ (FormatFloat (getMegabytes data) ++ [','])
  let b := b ++ (Itoa data.Milliseconds ++ [','])
  let b := b ++ (FormatFloat (getSeconds data) ++ [','])
  let b := b ++ (FormatFloat (getMegabitsPerSecond data) ++ [','])
  let b := b ++ FormatFloat (getMegabytesPerSecond data)
  b

/-- The string handed to `file.WriteString`: `dataText.String() + "\n"`. -/
def csvLine (data : speedTestData) : List Char :=
  dataText data ++ ['\n']

/-! ## The outside world -/

/-- A non-nil Go `error`, identified by its message. -/
structure GoError where
  msg : String
  deriving DecidableEq

/-- One observable effect of the program on its environment. -/
inductive Event where
  | openFile (name : String)
  | writeString (name : String) (text : List Char)
  | closeFile (name : String)
  | println (msg : String)
  deriving DecidableEq

/-- The file system (byte content per file name, `none` for an absent file) and the
effects performed so far, oldest first. -/
structure World where
  files : String → Option (List Char)
  trace : List Event

/-- Record one effect. -/
def World.log (w : World) (e : Event) : World :=
  { w with trace := w.trace ++ [e] }

/-- Replace the content of one file. -/
def World.setFile (w : World) (name : String) (content : List Char) : World :=
  { w with files := fun n => if n = name then some content else w.files n }

/-- The outcomes of the two fallible calls of `writeData`: `os.OpenFile`, and
`file.WriteString`, which on failure reports how many leading bytes it did write. -/
structure FileCalls where
  openErr : Option GoError
  writeErr : Option (Nat × GoError)

/-- What a run of the prober observes: the three clock readings, the outcome of the
HTTP exchange, the state of the context afterwards and the outcome of `ioutil.ReadAll`. -/
structure ProbeEnv where
  now : Time
  startNano : Int
  endNano : Int
  doErr : Option GoError
  ctxErr : Option GoError
  body : List UInt8
  readErr : Option GoError

/-- Wrap-around of a 64-bit signed integer. -/
def wrapInt64 (x : Int) : Int := (x + 2 ^ 63) % 2 ^ 64 - 2 ^ 63

/-! ## The logger -/

/-- `writeData`: open for appending (creating the file), build the row, write it,
close the file on every path after a successful open. -/
def writeData (sys : FileCalls) (w : World) (filename : String) (data : speedTestData) :
    World × Option GoError :=
  let w := w.log (Event.openFile filename)
  match sys.openErr with
  | some err => (w, some err)
  | none =>
    let old := (w.files filename).getD []
    let w := w.setFile filename old
    let text := csvLine data
    let w := w.log (Event.writeString filename text)
    match sys.writeErr with
    | some (n, err) =>
      ((w.setFile filename (old ++ text.take n)).log (Event.closeFile filename), some err)
    | none =>
      ((w.setFile filename (old ++ text)).log (Event.closeFile filename), none)

/-! ## The prober -/

/-- `speedTestMemory`: download with the standard HTTP client. -/
def speedTestMemory (env : ProbeEnv) (url : String) : speedTestData × Option GoError :=
  let data : speedTestData := ⟨"", 0, 0, Time.zero⟩
  let data := { data with Milliseconds := -1 }
  let data := { data with Bytes := -1 }
  let data := { data with URL := url }
  let data := { data with Date := env.now }
  let startTime := Int.tdiv env.startNano 1000000
  match env.doErr with
  | some err => (data, some err)
  | none =>
    match env.readErr with
    | some err => (data, some err)
    | none =>
      let endTime := Int.tdiv env.endNano 1000000
      let data := { data with Bytes := (env.body.length : Int) }
      let data := { data with Milliseconds := wrapInt64 (endTime - startTime) }
      (data, none)

/-- `speedTestMemoryWithContext`: download with a request bound to a 120 s deadline. -/
def speedTestMemoryWithContext (env : ProbeEnv) (url : String) :
    speedTestData × Option GoError :=
  let data : speedTestData := ⟨"", 0, 0, Time.zero⟩
  let data := { data with Milliseconds := -1 }
  let data := { data with Bytes := -1 }
  let data := { data with URL := url }
  let data := { data with Date := env.now }
  let startTime := Int.tdiv env.startNano 1000000
  match env.doErr with
  | some err => (data, some err)
  | none =>
    match env.ctxErr with
    | some err => (data, some err)
    | none =>
      match env.readErr with
      | some err => (data, some err)
      | none =>
        let endTime := Int.tdiv env.endNano 1000000
        let data := { data with Bytes := (env.body.length : Int) }
        let data := { data with Milliseconds := wrapInt64 (endTime - startTime) }
        (data, none)

/-! ## The entry point -/

/-- `main`: probe; on error print it and stop; otherwise append the row to
`speedtest.csv`, printing the error if that fails. -/
def main (env : ProbeEnv) (sys : FileCalls) (w : World) : World :=
  match speedTestMemoryWithContext env fileURL with
  | (_, some error) => w.log (Event.println error.msg)
  | (data, none) =>
    match writeData sys w "speedtest.csv" data with
    | (w, some error) => w.log (Event.println error.msg)
    | (w, none) => w

/-! ## Vocabulary of the statements -/

/-- Number of rows of a file: its newline characters. -/
def rowCount (content : List Char) : Nat := content.count '\n'

/-- Successive runs of `writeData` on one file, stopping at the first failure. -/
def writeAll (filename : String) : List (FileCalls × speedTestData) → World → World × Option GoError
  | [], w => (w, none)
  | (sys, data) :: rest, w =>
    match writeData sys w filename data with
    | (w, some err) => (w, some err)
    | (w, none) => writeAll filename rest w

/-- A fixed-point number with two decimals: one or more digits, a point, two digits. -/
def isFixed2 (s : List Char) : Bool :=
  match s.reverse with
  | d2 :: d1 :: '.' :: intPart =>
    d1.isDigit && d2.isDigit && !intPart.isEmpty && intPart.all Char.isDigit
  | _ => false

/-- The number written by a string of decimal digits. -/
def decimalValue (s : List Char) : Nat :=
  s.foldl (fun acc c => 10 * acc + (c.toNat - '0'.toNat)) 0

/-- The integer written by an optional `-` followed by decimal digits. -/
def signedValue (s : List Char) : Int :=
  match s with
  | '-' :: rest => -(decimalValue rest : Int)
  | _ => (decimalValue s : Int)

/-- A separator of the CSV file: the comma or the newline. -/
def isSep (c : Char) : Bool := c == ',' || c == '\n'

/-- The seven fields of the row of a measurement, in the order of the columns. -/
def fields (m : speedTestData) : List (List Char) :=
  [m.Date.Format, Itoa m.Bytes, FormatFloat (getMegabytes m), Itoa m.Milliseconds,
   FormatFloat (getSeconds m), FormatFloat (getMegabitsPerSecond m),
   FormatFloat (getMegabytesPerSecond m)]

/-- A rational with at most 53 significant bits. -/
def Repr64 (v : ℚ) : Prop := ∃ (k : Nat) (j : Int), k < 2 ^ 53 ∧ |v| = (k : ℚ) * (2 : ℚ) ^ j

/-- The value range of `int64`. -/
def isInt64 (x : Int) : Prop := -2 ^ 63 ≤ x ∧ x < 2 ^ 63

/-! ## Concrete measurements and runs -/

/-- The measurement of the scenario: 100 MiB in 10 s. -/
def scenario (url : String) (date : Time) : speedTestData :=
  ⟨url, 104857600, 10000, date⟩

/-- An empty file system with nothing done yet. -/
def World.empty : World := ⟨fun _ => none, []⟩

/-- Two runs whose system calls all succeed. -/
def twoRuns : List (FileCalls × speedTestData) :=
  [(⟨none, none⟩, scenario "u" Time.zero), (⟨none, none⟩, ⟨"u", 5, 0, Time.zero⟩)]

/-- A run that succeeds in two seconds. -/
def plainRun : ProbeEnv :=
  ⟨Time.zero, 5000000000, 7000000000, none, none, [1, 2, 3], none⟩

/-- A run that succeeds while the wall clock is set back by four seconds. -/
def clockSetBack : ProbeEnv :=
  ⟨Time.zero, 5000000000, 1000000000, none, none, [1, 2, 3], none⟩

/-- A run that succeeds while the wall clock is set back by one millisecond. -/
def clockOneBack : ProbeEnv :=
  ⟨Time.zero, 5000000000, 4999000000, none, none, [1, 2, 3], none⟩

/-- A run whose deadline has passed when the response arrives. -/
def deadlineRun : ProbeEnv :=
  ⟨Time.zero, 5000000000, 125000000000, none, some ⟨"context deadline exceeded"⟩, [], none⟩

/-! ## Facts about binary exponents -/

theorem log2Fuel_spec : ∀ (fuel n : Nat), 0 < n → n ≤ fuel →
    2 ^ log2Fuel fuel n ≤ n ∧ n < 2 ^ (log2Fuel fuel n + 1) := by
  intro fuel
  induction fuel with
  | zero => intro n h0 h1; omega
  | succ k ih =>
    intro n h0 h1
    unfold log2Fuel
    split
    · next h => simp; omega
    · next h =>
      obtain ⟨h2, h3⟩ := ih (n / 2) (by omega) (by omega)
      rw [pow_succ] at h3 ⊢
      rw [pow_succ]
      constructor <;> omega

theorem floorLog2_spec (n : Nat) (h : 0 < n) :
    2 ^ floorLog2 n ≤ n ∧ n < 2 ^ (floorLog2 n + 1) :=
  log2Fuel_spec n n h (le_refl n)

theorem pow2_eq (e : Int) : pow2 e = (2 : ℚ) ^ e := by
  unfold pow2
  split
  · next h =>
    have h1 : e = ((e.toNat : Nat) : Int) := (Int.toNat_of_nonneg h).symm
    conv_rhs => rw [h1]
    rw [zpow_natCast]
    push_cast
    rfl
  · next h =>
    have h1 : e = -(((-e).toNat : Nat) : Int) := by omega
    conv_rhs => rw [h1]
    rw [zpow_neg, zpow_natCast]
    push_cast
    rfl

theorem binExp_spec (a : ℚ) (ha : 0 < a) :
    (2 : ℚ) ^ binExp a ≤ a ∧ a < (2 : ℚ) ^ (binExp a + 1) := by
  have hnum : 0 < a.num := Rat.num_pos.mpr ha
  have hden : 0 < a.den := a.den_pos
  have hn0 : 0 < a.num.natAbs := Int.natAbs_pos.mpr (ne_of_gt hnum)
  obtain ⟨hn1, hn2⟩ := floorLog2_spec a.num.natAbs hn0
  obtain ⟨hd1, hd2⟩ := floorLog2_spec a.den hden
  have hcast : ((a.num.natAbs : Nat) : ℚ) = (a.num : ℚ) := by
    rw [← Int.cast_natCast, Int.natAbs_of_nonneg hnum.le]
  have hmul : a * (a.den : ℚ) = ((a.num.natAbs : Nat) : ℚ) := by
    rw [hcast]; exact Rat.mul_den_eq_num a
  have hdq : (0 : ℚ) < (a.den : ℚ) := by exact_mod_cast hden
  have hn1q : ((2 : ℚ) ^ (floorLog2 a.num.natAbs : Int)) ≤ ((a.num.natAbs : Nat) : ℚ) := by
    rw [zpow_natCast]; exact_mod_cast hn1
  have hn2q : ((a.num.natAbs : Nat) : ℚ) < (2 : ℚ) ^ ((floorLog2 a.num.natAbs : Int) + 1) := by
    have : ((floorLog2 a.num.natAbs : Int) + 1) = ((floorLog2 a.num.natAbs + 1 : Nat) : Int) := by
      push_cast; rfl
    rw [this, zpow_natCast]; exact_mod_cast hn2
  have hd1q : ((2 : ℚ) ^ (floorLog2 a.den : Int)) ≤ (a.den : ℚ) := by
    rw [zpow_natCast]; exact_mod_cast hd1
  have hd2q : (a.den : ℚ) < (2 : ℚ) ^ ((floorLog2 a.den : Int) + 1) := by
    have : ((floorLog2 a.den : Int) + 1) = ((floorLog2 a.den + 1 : Nat) : Int) := by
      push_cast; rfl
    rw [this, zpow_natCast]; exact_mod_cast hd2
  have h2 : (0 : ℚ) < 2 := by norm_num
  have h2ne : (2 : ℚ) ≠ 0 := by norm_num
  -- bounds in terms of e0
  have hup : a < (2 : ℚ) ^ ((floorLog2 a.num.natAbs : Int) - (floorLog2 a.den : Int) + 1) := by
    apply lt_of_mul_lt_mul_right _ hdq.le
    rw [hmul]
    calc ((a.num.natAbs : Nat) : ℚ)
        < (2 : ℚ) ^ ((floorLog2 a.num.natAbs : Int) + 1) := hn2q
      _ = (2 : ℚ) ^ ((floorLog2 a.num.natAbs : Int) - (floorLog2 a.den : Int) + 1)
            * (2 : ℚ) ^ (floorLog2 a.den : Int) := by
          rw [← zpow_add₀ h2ne]; congr 1; ring
      _ ≤ _ := by
          apply mul_le_mul_of_nonneg_left hd1q
          exact (zpow_pos h2 _).le
  have hlo : (2 : ℚ) ^ ((floorLog2 a.num.natAbs : Int) - (floorLog2 a.den : Int) - 1) ≤ a := by
    apply le_of_mul_le_mul_right _ hdq
    rw [hmul]
    calc (2 : ℚ) ^ ((floorLog2 a.num.natAbs : Int) - (floorLog2 a.den : Int) - 1) * (a.den : ℚ)
        ≤ (2 : ℚ) ^ ((floorLog2 a.num.natAbs : Int) - (floorLog2 a.den : Int) - 1)
            * (2 : ℚ) ^ ((floorLog2 a.den : Int) + 1) := by
          apply mul_le_mul_of_nonneg_left hd2q.le
          exact (zpow_pos h2 _).le
      _ = (2 : ℚ) ^ (floorLog2 a.num.natAbs : Int) := by
          rw [← zpow_add₀ h2ne]; congr 1; ring
      _ ≤ _ := hn1q
  unfold binExp
  simp only [pow2_eq]
  split
  · next h => exact ⟨h, hup⟩
  · next h =>
    refine ⟨hlo, ?_⟩
    have : (floorLog2 a.num.natAbs : Int) - (floorLog2 a.den : Int) - 1 + 1
        = (floorLog2 a.num.natAbs : Int) - (floorLog2 a.den : Int) := by ring
    rw [this]
    exact not_le.mp h


/-! ## Facts about rounding to an integer -/

theorem mul_den_natAbs (q : ℚ) (hq : 0 ≤ q) : q * (q.den : ℚ) = ((q.num.natAbs : Nat) : ℚ) := by
  have hnum : 0 ≤ q.num := Rat.num_nonneg.mpr hq
  have hc : ((q.num.natAbs : Nat) : ℚ) = (q.num : ℚ) := by
    rw [← Int.cast_natCast, Int.natAbs_of_nonneg hnum]
  rw [hc]
  exact Rat.mul_den_eq_num q

theorem roundHalfEven_natCast (N : Nat) : roundHalfEven (N : ℚ) = N := by
  simp [roundHalfEven, Nat.mod_one]

theorem le_roundHalfEven (q : ℚ) (hq : 0 ≤ q) (N : Nat) (h : (N : ℚ) ≤ q) :
    N ≤ roundHalfEven q := by
  have hd : 0 < q.den := q.den_pos
  have hmul := mul_den_natAbs q hq
  have h1 : (N : ℚ) * (q.den : ℚ) ≤ ((q.num.natAbs : Nat) : ℚ) := by
    rw [← hmul]
    exact mul_le_mul_of_nonneg_right h (by exact_mod_cast hd.le)
  have h2 : N * q.den ≤ q.num.natAbs := by exact_mod_cast h1
  have h3 : N ≤ q.num.natAbs / q.den := (Nat.le_div_iff_mul_le hd).mpr h2
  unfold roundHalfEven
  simp only
  split_ifs <;> omega

theorem roundHalfEven_le (q : ℚ) (hq : 0 ≤ q) (N : Nat) (h : q ≤ (N : ℚ)) :
    roundHalfEven q ≤ N := by
  have hd : 0 < q.den := q.den_pos
  have hmul := mul_den_natAbs q hq
  have h1 : ((q.num.natAbs : Nat) : ℚ) ≤ (N : ℚ) * (q.den : ℚ) := by
    rw [← hmul]
    exact mul_le_mul_of_nonneg_right h (by exact_mod_cast hd.le)
  have h2 : q.num.natAbs ≤ N * q.den := by exact_mod_cast h1
  have hdm := Nat.div_add_mod q.num.natAbs q.den
  have hA : q.num.natAbs / q.den ≤ N := by
    apply Nat.div_le_of_le_mul
    rw [Nat.mul_comm]; exact h2
  have hB : 0 < q.num.natAbs % q.den → q.num.natAbs / q.den + 1 ≤ N := by
    intro hr
    have h3 : q.den * (q.num.natAbs / q.den) < q.den * N := by
      rw [Nat.mul_comm q.den N]; omega
    exact Nat.lt_of_mul_lt_mul_left h3
  unfold roundHalfEven
  simp only
  split_ifs <;> omega


theorem roundHalfEven_error (q : ℚ) (hq : 0 ≤ q) :
    |(roundHalfEven q : ℚ) - q| ≤ 1 / 2 := by
  have hd : 0 < q.den := q.den_pos
  have hdq : (0 : ℚ) < (q.den : ℚ) := by exact_mod_cast hd
  have hmul := mul_den_natAbs q hq
  have hdm := Nat.div_add_mod q.num.natAbs q.den
  have hr : q.num.natAbs % q.den < q.den := Nat.mod_lt _ hd
  have hq' : q = ((q.num.natAbs / q.den : Nat) : ℚ)
      + ((q.num.natAbs % q.den : Nat) : ℚ) / (q.den : ℚ) := by
    rw [eq_comm, ← eq_sub_iff_add_eq', div_eq_iff hdq.ne', sub_mul, hmul]
    have : ((q.num.natAbs : Nat) : ℚ)
        = (q.den : ℚ) * ((q.num.natAbs / q.den : Nat) : ℚ) + ((q.num.natAbs % q.den : Nat) : ℚ) := by
      exact_mod_cast hdm.symm
    rw [this]; ring
  have hfrac0 : (0 : ℚ) ≤ ((q.num.natAbs % q.den : Nat) : ℚ) / (q.den : ℚ) := by positivity
  unfold roundHalfEven
  simp only
  split_ifs with h1 h2 h3
  · have hlt : (2 : ℚ) * ((q.num.natAbs % q.den : Nat) : ℚ) < (q.den : ℚ) := by exact_mod_cast h1
    have hfrac : ((q.num.natAbs % q.den : Nat) : ℚ) / (q.den : ℚ) ≤ 1 / 2 := by
      rw [div_le_iff₀ hdq]; linarith
    rw [abs_le]
    constructor <;> linarith
  · have hlt : (q.den : ℚ) < (2 : ℚ) * ((q.num.natAbs % q.den : Nat) : ℚ) := by exact_mod_cast h2
    have hrq : ((q.num.natAbs % q.den : Nat) : ℚ) < (q.den : ℚ) := by exact_mod_cast hr
    have hfrac : 1 / 2 ≤ ((q.num.natAbs % q.den : Nat) : ℚ) / (q.den : ℚ) := by
      rw [le_div_iff₀ hdq]; linarith
    have hfrac1 : ((q.num.natAbs % q.den : Nat) : ℚ) / (q.den : ℚ) ≤ 1 := by
      rw [div_le_iff₀ hdq]; linarith
    rw [abs_le]
    push_cast
    constructor <;> linarith
  · have heq : (2 : ℚ) * ((q.num.natAbs % q.den : Nat) : ℚ) = (q.den : ℚ) := by
      have : 2 * (q.num.natAbs % q.den) = q.den := by omega
      exact_mod_cast this
    have hfrac : ((q.num.natAbs % q.den : Nat) : ℚ) / (q.den : ℚ) = 1 / 2 := by
      rw [div_eq_iff hdq.ne']; linarith
    rw [abs_le]
    constructor <;> linarith
  · have heq : (2 : ℚ) * ((q.num.natAbs % q.den : Nat) : ℚ) = (q.den : ℚ) := by
      have : 2 * (q.num.natAbs % q.den) = q.den := by omega
      exact_mod_cast this
    have hfrac : ((q.num.natAbs % q.den : Nat) : ℚ) / (q.den : ℚ) = 1 / 2 := by
      rw [div_eq_iff hdq.ne']; linarith
    rw [abs_le]
    push_cast
    constructor <;> linarith

/-! ## Facts about rounding to binary64 -/

theorem two_zpow_pos (e : Int) : (0 : ℚ) < (2 : ℚ) ^ e := zpow_pos (by norm_num) e

theorem two_zpow_le {m n : Int} : (2 : ℚ) ^ m ≤ (2 : ℚ) ^ n ↔ m ≤ n :=
  zpow_le_zpow_iff_right₀ (by norm_num)

theorem two_zpow_lt {m n : Int} : (2 : ℚ) ^ m < (2 : ℚ) ^ n ↔ m < n :=
  zpow_lt_zpow_iff_right₀ (by norm_num)

theorem two_zpow_add (m n : Int) : (2 : ℚ) ^ (m + n) = (2 : ℚ) ^ m * (2 : ℚ) ^ n :=
  zpow_add₀ (by norm_num) m n

theorem two_zpow_nat (n : Nat) : (2 : ℚ) ^ (n : Int) = ((2 ^ n : Nat) : ℚ) := by
  rw [zpow_natCast]; push_cast; rfl

theorem roundMagnitude_spec (a : ℚ) (ha : 0 < a) (p q : Int) (hp : -1022 ≤ p) (hq : q ≤ 1023)
    (hpa : (2 : ℚ) ^ p ≤ a) (haq : a ≤ (2 : ℚ) ^ q) :
    ∃ v, roundMagnitude a = some v ∧ (2 : ℚ) ^ p ≤ v ∧ v ≤ (2 : ℚ) ^ q ∧ Repr64 v
      ∧ (Repr64 a → v = a) ∧ |v - a| ≤ a * (2 : ℚ) ^ (-53 : Int) := by
  obtain ⟨he1, he2⟩ := binExp_spec a ha
  generalize hedef : binExp a = e at he1 he2
  have hpe : p ≤ e := by
    have : (2 : ℚ) ^ p < (2 : ℚ) ^ (e + 1) := lt_of_le_of_lt hpa he2
    have := two_zpow_lt.mp this
    omega
  have heq : e ≤ q := two_zpow_le.mp (le_trans he1 haq)
  have hmax : max e (-1022) = e := max_eq_left (by omega)
  have hulp : (0 : ℚ) < (2 : ℚ) ^ (e - 52) := two_zpow_pos _
  have h52 : (2 : ℚ) ^ (52 : Int) * (2 : ℚ) ^ (e - 52) = (2 : ℚ) ^ e := by
    rw [← two_zpow_add]; congr 1; ring
  have h53 : (2 : ℚ) ^ (53 : Int) * (2 : ℚ) ^ (e - 52) = (2 : ℚ) ^ (e + 1) := by
    rw [← two_zpow_add]; congr 1; ring
  have hx0 : 0 ≤ a / (2 : ℚ) ^ (e - 52) := (div_pos ha hulp).le
  have hx1 : ((2 ^ 52 : Nat) : ℚ) ≤ a / (2 : ℚ) ^ (e - 52) := by
    rw [← two_zpow_nat, le_div_iff₀ hulp, Nat.cast_ofNat, h52]; exact he1
  have hx2 : a / (2 : ℚ) ^ (e - 52) ≤ ((2 ^ 53 : Nat) : ℚ) := by
    rw [← two_zpow_nat, div_le_iff₀ hulp, Nat.cast_ofNat, h53]; exact he2.le
  have hm1 := le_roundHalfEven _ hx0 _ hx1
  have hm2 := roundHalfEven_le _ hx0 _ hx2
  -- the case where `a` is the power of two `2 ^ e`
  have hexact : a = (2 : ℚ) ^ e → roundHalfEven (a / (2 : ℚ) ^ (e - 52)) = 2 ^ 52 := by
    intro h
    have : a / (2 : ℚ) ^ (e - 52) = ((2 ^ 52 : Nat) : ℚ) := by
      rw [← two_zpow_nat, div_eq_iff hulp.ne', Nat.cast_ofNat, h52]; exact h
    rw [this, roundHalfEven_natCast]
  have hno : ¬ (1023 < e ∨ (e = 1023 ∧
      roundHalfEven (a / (2 : ℚ) ^ (e - 52)) = 9007199254740992)) := by
    rintro (h | ⟨h1, h2⟩)
    · omega
    · have hqe : q = e := by omega
      have : a = (2 : ℚ) ^ e := le_antisymm (hqe ▸ haq) he1
      rw [hexact this] at h2
      norm_num at h2
  refine ⟨(roundHalfEven (a / (2 : ℚ) ^ (e - 52)) : ℚ) * (2 : ℚ) ^ (e - 52),
    ?_, ?_, ?_, ?_, ?_, ?_⟩
  · unfold roundMagnitude
    simp only [pow2_eq, hedef, hmax]
    rw [if_neg hno]
  · calc (2 : ℚ) ^ p ≤ (2 : ℚ) ^ e := two_zpow_le.mpr hpe
      _ = ((2 ^ 52 : Nat) : ℚ) * (2 : ℚ) ^ (e - 52) := by
          rw [← two_zpow_nat, Nat.cast_ofNat, h52]
      _ ≤ _ := by
          apply mul_le_mul_of_nonneg_right _ hulp.le
          exact_mod_cast hm1
  · rcases lt_or_eq_of_le heq with hlt | heq'
    · calc (roundHalfEven (a / (2 : ℚ) ^ (e - 52)) : ℚ) * (2 : ℚ) ^ (e - 52)
          ≤ ((2 ^ 53 : Nat) : ℚ) * (2 : ℚ) ^ (e - 52) := by
            apply mul_le_mul_of_nonneg_right _ hulp.le
            exact_mod_cast hm2
        _ = (2 : ℚ) ^ (e + 1) := by rw [← two_zpow_nat, Nat.cast_ofNat, h53]
        _ ≤ (2 : ℚ) ^ q := two_zpow_le.mpr (by omega)
    · have hae : a = (2 : ℚ) ^ e := le_antisymm (heq' ▸ haq) he1
      rw [hexact hae, ← two_zpow_nat, Nat.cast_ofNat, h52, heq']
  · by_cases hlt : roundHalfEven (a / (2 : ℚ) ^ (e - 52)) < 2 ^ 53
    · refine ⟨_, e - 52, hlt, ?_⟩
      rw [abs_of_nonneg]
      exact mul_nonneg (Nat.cast_nonneg _) hulp.le
    · have hm : roundHalfEven (a / (2 : ℚ) ^ (e - 52)) = 2 ^ 53 := by omega
      refine ⟨2 ^ 52, e - 51, by norm_num, ?_⟩
      rw [hm, abs_of_nonneg (mul_nonneg (Nat.cast_nonneg _) hulp.le),
        ← two_zpow_nat, ← two_zpow_nat, Nat.cast_ofNat, Nat.cast_ofNat,
        ← two_zpow_add, ← two_zpow_add]
      congr 1; ring
  · rintro ⟨k, j, hk, hkj⟩
    rw [abs_of_pos ha] at hkj
    have hkq : (k : ℚ) < (2 : ℚ) ^ (53 : Int) := by
      rw [show (53 : Int) = ((53 : Nat) : Int) from rfl, two_zpow_nat]
      exact_mod_cast hk
    have hlt : (2 : ℚ) ^ e < (2 : ℚ) ^ (53 + j) := by
      calc (2 : ℚ) ^ e ≤ a := he1
        _ = (k : ℚ) * (2 : ℚ) ^ j := hkj
        _ < (2 : ℚ) ^ (53 : Int) * (2 : ℚ) ^ j :=
            mul_lt_mul_of_pos_right hkq (two_zpow_pos j)
        _ = (2 : ℚ) ^ (53 + j) := (two_zpow_add 53 j).symm
    have hej : e < 53 + j := two_zpow_lt.mp hlt
    have ht : j - (e - 52) = (((j - (e - 52)).toNat : Nat) : Int) := by omega
    have hx : a / (2 : ℚ) ^ (e - 52) = ((k * 2 ^ (j - (e - 52)).toNat : Nat) : ℚ) := by
      rw [div_eq_iff hulp.ne', hkj, Nat.cast_mul, ← two_zpow_nat, ← ht, mul_assoc,
        ← two_zpow_add]
      congr 2; ring
    rw [hx, roundHalfEven_natCast, ← hx]
    exact div_mul_cancel₀ a hulp.ne'
  · have herr := roundHalfEven_error _ hx0
    have hhalf : (1 / 2 : ℚ) * (2 : ℚ) ^ (e - 52) = (2 : ℚ) ^ e * (2 : ℚ) ^ (-53 : Int) := by
      rw [show (1 / 2 : ℚ) = (2 : ℚ) ^ (-1 : Int) by norm_num, ← two_zpow_add, ← two_zpow_add]
      congr 1; ring
    calc |(roundHalfEven (a / (2 : ℚ) ^ (e - 52)) : ℚ) * (2 : ℚ) ^ (e - 52) - a|
        = |((roundHalfEven (a / (2 : ℚ) ^ (e - 52)) : ℚ) - a / (2 : ℚ) ^ (e - 52))
            * (2 : ℚ) ^ (e - 52)| := by
          congr 1; rw [sub_mul, div_mul_cancel₀ a hulp.ne']
      _ = |(roundHalfEven (a / (2 : ℚ) ^ (e - 52)) : ℚ) - a / (2 : ℚ) ^ (e - 52)|
            * (2 : ℚ) ^ (e - 52) := by rw [abs_mul, abs_of_pos hulp]
      _ ≤ (1 / 2 : ℚ) * (2 : ℚ) ^ (e - 52) := mul_le_mul_of_nonneg_right herr hulp.le
      _ = (2 : ℚ) ^ e * (2 : ℚ) ^ (-53 : Int) := hhalf
      _ ≤ a * (2 : ℚ) ^ (-53 : Int) := mul_le_mul_of_nonneg_right he1 (two_zpow_pos _).le

/-! ## Facts about the float operations -/

theorem Repr64_scale (v : ℚ) (t : Int) (h : Repr64 v) : Repr64 (v * (2 : ℚ) ^ t) := by
  obtain ⟨k, j, hk, hv⟩ := h
  refine ⟨k, j + t, hk, ?_⟩
  rw [abs_mul, abs_of_pos (two_zpow_pos t), hv, two_zpow_add, mul_assoc]

theorem Repr64_abs (a : ℚ) (h : Repr64 a) : Repr64 |a| := by
  obtain ⟨k, j, hk, hv⟩ := h
  exact ⟨k, j, hk, by rw [abs_abs]; exact hv⟩

theorem F64.round_zero : F64.round 0 = F64.fin 0 := by
  simp [F64.round]

theorem F64.round_spec (a : ℚ) (p q : Int) (hp : -1022 ≤ p) (hq : q ≤ 1023)
    (hpa : (2 : ℚ) ^ p ≤ |a|) (haq : |a| ≤ (2 : ℚ) ^ q) :
    ∃ v, F64.round a = F64.fin v ∧ (2 : ℚ) ^ p ≤ |v| ∧ |v| ≤ (2 : ℚ) ^ q
      ∧ (0 < a → 0 < v) ∧ (a < 0 → v < 0) ∧ Repr64 v ∧ (Repr64 a → v = a) := by
  have hpos : 0 < |a| := lt_of_lt_of_le (two_zpow_pos p) hpa
  have ha0 : a ≠ 0 := abs_pos.mp hpos
  obtain ⟨w, hw, hw1, hw2, hw3, hw4, _⟩ := roundMagnitude_spec |a| hpos p q hp hq hpa haq
  have hwpos : 0 < w := lt_of_lt_of_le (two_zpow_pos p) hw1
  have hwabs : |w| = w := abs_of_pos hwpos
  unfold F64.round
  rw [if_neg ha0, hw]
  simp only [if_neg hwpos.ne']
  by_cases hneg : a < 0
  · refine ⟨-w, by rw [if_pos hneg], by rw [abs_neg, hwabs]; exact hw1,
      by rw [abs_neg, hwabs]; exact hw2, ?_, ?_, ?_, ?_⟩
    · intro h; exact absurd h (not_lt.mpr hneg.le)
    · intro _; linarith
    · obtain ⟨k, j, hk, hv⟩ := hw3
      exact ⟨k, j, hk, by rw [abs_neg]; exact hv⟩
    · intro hr
      rw [hw4 (Repr64_abs a hr), abs_of_neg hneg, neg_neg]
  · have hap : 0 < a := lt_of_le_of_ne (not_lt.mp hneg) (Ne.symm ha0)
    refine ⟨w, by rw [if_neg hneg], by rw [hwabs]; exact hw1, by rw [hwabs]; exact hw2,
      fun _ => hwpos, fun h => absurd h hneg, hw3, ?_⟩
    intro hr
    rw [hw4 (Repr64_abs a hr), abs_of_pos hap]

theorem F64.round_scale_exact (v : ℚ) (t p q : Int) (hv : Repr64 v)
    (hp : -1022 ≤ p + t) (hq : q + t ≤ 1023)
    (h1 : (2 : ℚ) ^ p ≤ |v|) (h2 : |v| ≤ (2 : ℚ) ^ q) :
    F64.round (v * (2 : ℚ) ^ t) = F64.fin (v * (2 : ℚ) ^ t) := by
  have habs : |v * (2 : ℚ) ^ t| = |v| * (2 : ℚ) ^ t := by
    rw [abs_mul, abs_of_pos (two_zpow_pos t)]
  obtain ⟨w, hw, _, _, _, _, _, hex⟩ := F64.round_spec (v * (2 : ℚ) ^ t) (p + t) (q + t) hp hq
    (by rw [habs, two_zpow_add]; exact mul_le_mul_of_nonneg_right h1 (two_zpow_pos t).le)
    (by rw [habs, two_zpow_add]; exact mul_le_mul_of_nonneg_right h2 (two_zpow_pos t).le)
  rw [hw, hex (Repr64_scale v t hv)]

/-- Rounding to binary64 moves a number of the normal range by at most the fraction
`2 ^ -53` of its magnitude. -/
theorem F64.round_error (a : ℚ) (p q : Int) (hp : -1022 ≤ p) (hq : q ≤ 1023)
    (hpa : (2 : ℚ) ^ p ≤ |a|) (haq : |a| ≤ (2 : ℚ) ^ q) :
    |(F64.round a).toRat - a| ≤ |a| * (2 : ℚ) ^ (-53 : Int) := by
  have hpos : 0 < |a| := lt_of_lt_of_le (two_zpow_pos p) hpa
  have ha0 : a ≠ 0 := abs_pos.mp hpos
  obtain ⟨w, hw, hw1, _, _, _, herr⟩ := roundMagnitude_spec |a| hpos p q hp hq hpa haq
  have hwpos : 0 < w := lt_of_lt_of_le (two_zpow_pos p) hw1
  unfold F64.round
  rw [if_neg ha0, hw]
  simp only [if_neg hwpos.ne', F64.toRat]
  by_cases hneg : a < 0
  · rw [if_pos hneg]
    rw [abs_of_neg hneg] at herr ⊢
    have : -w - a = -(w - -a) := by ring
    rw [this, abs_neg]
    exact herr
  · have hap : 0 < a := lt_of_le_of_ne (not_lt.mp hneg) (Ne.symm ha0)
    rw [if_neg hneg]
    rw [abs_of_pos hap] at herr ⊢
    exact herr

theorem clampInt64_spec (n : Int) :
    -9223372036854775808 ≤ clampInt64 n ∧ clampInt64 n ≤ 9223372036854775807
    ∧ (0 < n → 0 < clampInt64 n) ∧ (n < 0 → clampInt64 n < 0) ∧ (n = 0 → clampInt64 n = 0)
    ∧ (-9223372036854775808 ≤ n → n ≤ 9223372036854775807 → clampInt64 n = n) := by
  unfold clampInt64
  omega

theorem abs_intCast_bounds (c : Int) (hc : c ≠ 0) (h1 : -9223372036854775808 ≤ c)
    (h2 : c ≤ 9223372036854775807) :
    (2 : ℚ) ^ (0 : Int) ≤ |(c : ℚ)| ∧ |(c : ℚ)| ≤ (2 : ℚ) ^ (63 : Int) := by
  have h3 : (1 : Int) ≤ |c| ∧ |c| ≤ 9223372036854775808 := by
    constructor
    · exact Int.one_le_abs hc
    · rw [abs_le]; omega
  have h4 : |(c : ℚ)| = ((|c| : Int) : ℚ) := (Int.cast_abs).symm
  rw [h4]
  constructor
  · rw [zpow_zero]; exact_mod_cast h3.1
  · have : (2 : ℚ) ^ (63 : Int) = ((9223372036854775808 : Int) : ℚ) := by norm_num
    rw [this]; exact_mod_cast h3.2

/-- On the values of Go's `int` the conversion is plain rounding. -/
theorem F64.ofInt_of_isInt64 (n : Int) (h : isInt64 n) :
    F64.ofInt n = F64.round (n : ℚ) := by
  obtain ⟨_, _, _, _, _, c6⟩ := clampInt64_spec n
  unfold isInt64 at h
  unfold F64.ofInt
  rw [c6 (by omega) (by omega)]

theorem F64.ofInt_zero : F64.ofInt 0 = F64.fin 0 := by
  simp [F64.ofInt, clampInt64, F64.round_zero]

theorem F64.ofInt_spec (n : Int) (hn : n ≠ 0) :
    ∃ v, F64.ofInt n = F64.fin v ∧ (2 : ℚ) ^ (0 : Int) ≤ |v| ∧ |v| ≤ (2 : ℚ) ^ (63 : Int)
      ∧ (0 < n → 0 < v) ∧ (n < 0 → v < 0) ∧ Repr64 v := by
  obtain ⟨c1, c2, c3, c4, _, _⟩ := clampInt64_spec n
  have hc : clampInt64 n ≠ 0 := by
    rcases lt_or_gt_of_ne hn with h | h
    · exact ne_of_lt (c4 h)
    · exact ne_of_gt (c3 h)
  obtain ⟨b1, b2⟩ := abs_intCast_bounds (clampInt64 n) hc c1 c2
  obtain ⟨v, hv, v1, v2, v3, v4, v5, _⟩ :=
    F64.round_spec ((clampInt64 n : Int) : ℚ) 0 63 (by decide) (by decide) b1 b2
  refine ⟨v, hv, v1, v2, ?_, ?_, v5⟩
  · intro h; exact v3 (by exact_mod_cast c3 h)
  · intro h; exact v4 (by exact_mod_cast c4 h)

theorem Repr64_intCast (n : Int) (h : |n| ≤ 9007199254740992) : Repr64 (n : ℚ) := by
  have habs : |(n : ℚ)| = ((n.natAbs : Nat) : ℚ) := by
    rw [Nat.cast_natAbs, Int.cast_abs]
  have h' := abs_le.mp h
  have hnat : n.natAbs ≤ 9007199254740992 := by omega
  by_cases hlt : n.natAbs < 9007199254740992
  · exact ⟨n.natAbs, 0, by norm_num; exact hlt, by rw [habs, zpow_zero, mul_one]⟩
  · have heq : n.natAbs = 9007199254740992 := by omega
    refine ⟨4503599627370496, 1, by norm_num, ?_⟩
    rw [habs, heq]; norm_num

theorem F64.ofInt_exact (n : Int) (h : |n| ≤ 9007199254740992) :
    F64.ofInt n = F64.fin (n : ℚ) := by
  by_cases hn : n = 0
  · subst hn; simpa using F64.ofInt_zero
  · obtain ⟨c1, c2, _, _, _, c6⟩ := clampInt64_spec n
    have hrange : clampInt64 n = n := c6 (by rw [abs_le] at h; omega) (by rw [abs_le] at h; omega)
    obtain ⟨b1, b2⟩ := abs_intCast_bounds n hn (by rw [abs_le] at h; omega)
      (by rw [abs_le] at h; omega)
    obtain ⟨v, hv, _, _, _, _, _, hex⟩ :=
      F64.round_spec (n : ℚ) 0 63 (by decide) (by decide) b1 b2
    unfold F64.ofInt
    rw [hrange, hv, hex (Repr64_intCast n h)]

theorem F64.div_fin_pos (x y : ℚ) (hy : 0 < y) :
    F64.div (F64.fin x) (F64.fin y) = F64.round (x / y) := by
  have hy0 : y ≠ 0 := ne_of_gt hy
  have hyn : ¬ y < 0 := not_lt.mpr hy.le
  by_cases hx : x = 0
  · subst hx
    simp [F64.div, F64.isNaN, F64.isInf, F64.isZero, F64.signBit, F64.zero, hy0, hyn,
      F64.round_zero]
  · simp [F64.div, F64.isNaN, F64.isInf, F64.isZero, F64.toRat, hy0, hx]

theorem F64.mul_fin_pos (x y : ℚ) (hy : 0 < y) :
    F64.mul (F64.fin x) (F64.fin y) = F64.round (x * y) := by
  have hy0 : y ≠ 0 := ne_of_gt hy
  have hyn : ¬ y < 0 := not_lt.mpr hy.le
  by_cases hx : x = 0
  · subst hx
    simp [F64.mul, F64.isNaN, F64.isInf, F64.isZero, F64.signBit, F64.zero, hyn,
      F64.round_zero]
  · simp [F64.mul, F64.isNaN, F64.isInf, F64.isZero, F64.toRat, hy0, hx]

theorem F64.div_fin_zero_pos (a : ℚ) (ha : 0 < a) :
    F64.div (F64.fin a) (F64.fin 0) = F64.posInf := by
  have ha0 : a ≠ 0 := ne_of_gt ha
  have han : ¬ a < 0 := not_lt.mpr ha.le
  simp [F64.div, F64.isNaN, F64.isInf, F64.isZero, F64.signBit, F64.inf, ha0, han]

theorem F64.div_zero_zero : F64.div (F64.fin 0) (F64.fin 0) = F64.nan := by
  simp [F64.div, F64.isNaN, F64.isInf, F64.isZero]

theorem F64.ofInt_1048576 : F64.ofInt 1048576 = F64.fin 1048576 := by
  have h := F64.ofInt_exact 1048576 (by norm_num)
  simpa using h

theorem F64.ofInt_1000 : F64.ofInt 1000 = F64.fin 1000 := by
  have h := F64.ofInt_exact 1000 (by norm_num)
  simpa using h

theorem F64.ofInt_8 : F64.ofInt 8 = F64.fin 8 := by
  have h := F64.ofInt_exact 8 (by norm_num)
  simpa using h

/-- What `float64(n)` is for an `int` `n`: a finite value of the sign of `n`, zero only
for `n = 0`, otherwise of magnitude between 1 and `2 ^ 63` with 53 significant bits. -/
theorem F64.ofInt_value (n : Int) :
    F64.ofInt n = F64.fin (F64.ofInt n).toRat
    ∧ (n = 0 → (F64.ofInt n).toRat = 0)
    ∧ (n ≠ 0 → 1 ≤ |(F64.ofInt n).toRat| ∧ |(F64.ofInt n).toRat| ≤ 9223372036854775808
        ∧ Repr64 (F64.ofInt n).toRat)
    ∧ (0 < n → 0 < (F64.ofInt n).toRat)
    ∧ (n < 0 → (F64.ofInt n).toRat < 0) := by
  by_cases hn : n = 0
  · subst hn
    rw [F64.ofInt_zero]
    simp [F64.toRat]
  · obtain ⟨v, hv, v1, v2, v3, v4, v5⟩ := F64.ofInt_spec n hn
    rw [hv]
    show F64.fin v = F64.fin v ∧ (n = 0 → v = 0)
      ∧ (n ≠ 0 → 1 ≤ |v| ∧ |v| ≤ 9223372036854775808 ∧ Repr64 v)
      ∧ (0 < n → 0 < v) ∧ (n < 0 → v < 0)
    have e0 : (2 : ℚ) ^ (0 : Int) = 1 := by norm_num
    have e63 : (2 : ℚ) ^ (63 : Int) = 9223372036854775808 := by norm_num
    rw [e0] at v1
    rw [e63] at v2
    exact ⟨rfl, fun h => absurd h hn, fun _ => ⟨v1, v2, v5⟩, v3, v4⟩

theorem getMegabytes_val (m : speedTestData) :
    getMegabytes m = F64.fin ((F64.ofInt m.Bytes).toRat / 1048576) := by
  obtain ⟨hfin, h0, hne, _, _⟩ := F64.ofInt_value m.Bytes
  unfold getMegabytes
  rw [F64.ofInt_1048576]
  generalize (F64.ofInt m.Bytes).toRat = v at hfin h0 hne ⊢
  rw [hfin, F64.div_fin_pos v 1048576 (by norm_num)]
  by_cases hb : m.Bytes = 0
  · rw [h0 hb]; simp [F64.round_zero]
  · obtain ⟨v1, v2, v3⟩ := hne hb
    have hs : v / 1048576 = v * (2 : ℚ) ^ (-20 : Int) := by
      rw [div_eq_mul_inv]; congr 1; norm_num
    rw [hs]
    exact F64.round_scale_exact v (-20) 0 63 v3 (by decide) (by decide)
      (by rw [zpow_zero]; exact v1) (by norm_num; exact v2)

theorem getMegabits_val (m : speedTestData) :
    getMegabits m = F64.fin ((F64.ofInt m.Bytes).toRat / 1048576 * 8) := by
  have hmb := getMegabytes_val m
  obtain ⟨_, h0, hne, _, _⟩ := F64.ofInt_value m.Bytes
  unfold getMegabytes at hmb
  unfold getMegabits
  rw [hmb, F64.ofInt_8, F64.mul_fin_pos _ 8 (by norm_num)]
  generalize (F64.ofInt m.Bytes).toRat = v at h0 hne ⊢
  by_cases hb : m.Bytes = 0
  · rw [h0 hb]; simp [F64.round_zero]
  · obtain ⟨v1, v2, v3⟩ := hne hb
    have hs : v / 1048576 * 8 = v * (2 : ℚ) ^ (-17 : Int) := by
      rw [div_eq_mul_inv, mul_assoc]; congr 1; norm_num
    rw [hs]
    exact F64.round_scale_exact v (-17) 0 63 v3 (by decide) (by decide)
      (by rw [zpow_zero]; exact v1) (by norm_num; exact v2)

theorem getSeconds_round (m : speedTestData) :
    getSeconds m = F64.round ((F64.ofInt m.Milliseconds).toRat / 1000) := by
  obtain ⟨hfin, _⟩ := F64.ofInt_value m.Milliseconds
  unfold getSeconds
  rw [F64.ofInt_1000]
  generalize (F64.ofInt m.Milliseconds).toRat = w at hfin ⊢
  rw [hfin, F64.div_fin_pos w 1000 (by norm_num)]

theorem getSeconds_zero (m : speedTestData) (h : m.Milliseconds = 0) :
    getSeconds m = F64.fin 0 := by
  rw [getSeconds_round, h, F64.ofInt_zero]
  simp [F64.toRat, F64.round_zero]

/-- The bracket that holds `w / 1000` for a nonzero `float64` of an `int`. -/
theorem seconds_bracket (w : ℚ) (h1 : 1 ≤ |w|) (h2 : |w| ≤ 9223372036854775808) :
    (2 : ℚ) ^ (-10 : Int) ≤ |w / 1000| ∧ |w / 1000| ≤ (2 : ℚ) ^ (54 : Int) := by
  have e1 : (2 : ℚ) ^ (-10 : Int) = 1 / 1024 := by norm_num
  have e2 : (2 : ℚ) ^ (54 : Int) = 18014398509481984 := by norm_num
  have habs : |w / 1000| = |w| / 1000 := by
    rw [abs_div, abs_of_pos (by norm_num : (0 : ℚ) < 1000)]
  rw [e1, e2, habs]
  constructor
  · rw [le_div_iff₀ (by norm_num)]; linarith
  · rw [div_le_iff₀ (by norm_num)]; linarith

theorem getSeconds_pos (m : speedTestData) (h : 0 < m.Milliseconds) :
    ∃ s, getSeconds m = F64.fin s ∧ (2 : ℚ) ^ (-10 : Int) ≤ s ∧ s ≤ (2 : ℚ) ^ (54 : Int) := by
  obtain ⟨_, _, hne, hpos, _⟩ := F64.ofInt_value m.Milliseconds
  obtain ⟨w1, w2, _⟩ := hne (ne_of_gt h)
  obtain ⟨b1, b2⟩ := seconds_bracket _ w1 w2
  obtain ⟨s, hs, s1, s2, s3, _, _, _⟩ :=
    F64.round_spec _ (-10) 54 (by decide) (by decide) b1 b2
  have hsp : 0 < s := s3 (div_pos (hpos h) (by norm_num))
  rw [abs_of_pos hsp] at s1 s2
  exact ⟨s, by rw [getSeconds_round, hs], s1, s2⟩

theorem getSeconds_neg (m : speedTestData) (h : m.Milliseconds < 0) :
    ∃ s, getSeconds m = F64.fin s ∧ s < 0 := by
  obtain ⟨_, _, hne, _, hneg⟩ := F64.ofInt_value m.Milliseconds
  obtain ⟨w1, w2, _⟩ := hne (ne_of_lt h)
  obtain ⟨b1, b2⟩ := seconds_bracket _ w1 w2
  obtain ⟨s, hs, _, _, _, s4, _, _⟩ :=
    F64.round_spec _ (-10) 54 (by decide) (by decide) b1 b2
  exact ⟨s, by rw [getSeconds_round, hs], s4 (div_neg_of_neg_of_pos (hneg h) (by norm_num))⟩

/-- The bracket that holds the quotient of a byte quantity by a positive duration. -/
theorem rate_bracket (b s : ℚ)
    (hb1 : (2 : ℚ) ^ (-20 : Int) ≤ |b|) (hb2 : |b| ≤ (2 : ℚ) ^ (46 : Int))
    (hs1 : (2 : ℚ) ^ (-10 : Int) ≤ s) (hs2 : s ≤ (2 : ℚ) ^ (54 : Int)) :
    (2 : ℚ) ^ (-74 : Int) ≤ |b / s| ∧ |b / s| ≤ (2 : ℚ) ^ (56 : Int) := by
  have hsp : 0 < s := lt_of_lt_of_le (two_zpow_pos _) hs1
  have habs : |b / s| = |b| / s := by rw [abs_div, abs_of_pos hsp]
  constructor
  · rw [habs, le_div_iff₀ hsp]
    calc (2 : ℚ) ^ (-74 : Int) * s ≤ (2 : ℚ) ^ (-74 : Int) * (2 : ℚ) ^ (54 : Int) :=
          mul_le_mul_of_nonneg_left hs2 (two_zpow_pos _).le
      _ = (2 : ℚ) ^ (-20 : Int) := by rw [← two_zpow_add]; norm_num
      _ ≤ |b| := hb1
  · rw [habs, div_le_iff₀ hsp]
    calc |b| ≤ (2 : ℚ) ^ (46 : Int) := hb2
      _ = (2 : ℚ) ^ (56 : Int) * (2 : ℚ) ^ (-10 : Int) := by rw [← two_zpow_add]; norm_num
      _ ≤ (2 : ℚ) ^ (56 : Int) * s := mul_le_mul_of_nonneg_left hs1 (two_zpow_pos _).le

/-- The quotient of a byte quantity by a positive duration: finite, of the sign of the
numerator, and the exact quotient rounded, within the fraction `2 ^ -53` of it. -/
theorem rate_spec (b s : ℚ)
    (hb : b = 0 ∨ ((2 : ℚ) ^ (-20 : Int) ≤ |b| ∧ |b| ≤ (2 : ℚ) ^ (46 : Int)))
    (hs1 : (2 : ℚ) ^ (-10 : Int) ≤ s) (hs2 : s ≤ (2 : ℚ) ^ (54 : Int)) :
    F64.div (F64.fin b) (F64.fin s) = F64.round (b / s)
    ∧ ∃ r, F64.div (F64.fin b) (F64.fin s) = F64.fin r ∧ (0 ≤ b → 0 ≤ r)
        ∧ |r - b / s| ≤ |b / s| * (2 : ℚ) ^ (-53 : Int) := by
  have hsp : 0 < s := lt_of_lt_of_le (two_zpow_pos _) hs1
  have hdiv := F64.div_fin_pos b s hsp
  refine ⟨hdiv, ?_⟩
  rcases hb with hb | ⟨hb1, hb2⟩
  · subst hb
    exact ⟨0, by rw [hdiv]; simp [F64.round_zero], fun _ => le_refl 0, by simp⟩
  · obtain ⟨l1, l2⟩ := rate_bracket b s hb1 hb2 hs1 hs2
    obtain ⟨r, hr, _, _, r3, _, _, _⟩ :=
      F64.round_spec (b / s) (-74) 56 (by decide) (by decide) l1 l2
    have herr := F64.round_error (b / s) (-74) 56 (by decide) (by decide) l1 l2
    rw [hr] at herr
    refine ⟨r, by rw [hdiv, hr], ?_, herr⟩
    intro hb0
    have hbne : b ≠ 0 := by
      intro h0
      rw [h0, abs_zero] at hb1
      exact absurd hb1 (not_le.mpr (two_zpow_pos _))
    exact (r3 (div_pos (lt_of_le_of_ne hb0 (Ne.symm hbne)) hsp)).le

/-- The range of the megabyte and megabit quantities of a byte count. -/
theorem bytes_range (n : Int) (c : ℚ) (hc : c = 1 ∨ c = 8) :
    ((F64.ofInt n).toRat / 1048576 * c = 0
      ∨ ((2 : ℚ) ^ (-20 : Int) ≤ |(F64.ofInt n).toRat / 1048576 * c|
          ∧ |(F64.ofInt n).toRat / 1048576 * c| ≤ (2 : ℚ) ^ (46 : Int)))
    ∧ (0 ≤ n → 0 ≤ (F64.ofInt n).toRat / 1048576 * c)
    ∧ (0 < n → 0 < (F64.ofInt n).toRat / 1048576 * c)
    ∧ (n = 0 → (F64.ofInt n).toRat / 1048576 * c = 0) := by
  obtain ⟨_, h0, hne, hpos, _⟩ := F64.ofInt_value n
  generalize (F64.ofInt n).toRat = v at h0 hne hpos ⊢
  have hcpos : 0 < c := by rcases hc with rfl | rfl <;> norm_num
  have hc1 : 1 ≤ c := by rcases hc with rfl | rfl <;> norm_num
  have hc8 : c ≤ 8 := by rcases hc with rfl | rfl <;> norm_num
  have hzero : n = 0 → v / 1048576 * c = 0 := by
    intro h; rw [h0 h]; simp
  have hposv : 0 < n → 0 < v / 1048576 * c := by
    intro h
    exact mul_pos (div_pos (hpos h) (by norm_num)) hcpos
  refine ⟨?_, ?_, hposv, hzero⟩
  · by_cases hn : n = 0
    · left; exact hzero hn
    · right
      obtain ⟨v1, v2, _⟩ := hne hn
      have e1 : (2 : ℚ) ^ (-20 : Int) = 1 / 1048576 := by norm_num
      have e2 : (2 : ℚ) ^ (46 : Int) = 70368744177664 := by norm_num
      have habs : |v / 1048576 * c| = |v| / 1048576 * c := by
        rw [abs_mul, abs_div, abs_of_pos hcpos, abs_of_pos (by norm_num : (0 : ℚ) < 1048576)]
      rw [e1, e2, habs]
      have hvn : 0 ≤ |v| := abs_nonneg v
      constructor
      · have : 1 / 1048576 ≤ |v| / 1048576 := by
          apply div_le_div_of_nonneg_right v1; norm_num
        calc (1 : ℚ) / 1048576 ≤ |v| / 1048576 := this
          _ = |v| / 1048576 * 1 := (mul_one _).symm
          _ ≤ |v| / 1048576 * c := by
              apply mul_le_mul_of_nonneg_left hc1; positivity
      · calc |v| / 1048576 * c ≤ |v| / 1048576 * 8 := by
              apply mul_le_mul_of_nonneg_left hc8; positivity
          _ ≤ 9223372036854775808 / 1048576 * 8 := by
              apply mul_le_mul_of_nonneg_right _ (by norm_num)
              apply div_le_div_of_nonneg_right v2; norm_num
          _ = 70368744177664 := by norm_num
  · intro h
    rcases lt_or_eq_of_le h with h1 | h1
    · exact (hposv h1).le
    · exact (hzero h1.symm).ge

/-! ## Claims on the unit converter -/

/-- C1, amended: for a byte count of magnitude at most `2 ^ 53`, `getMegabytes` is the
byte count divided by 1048576, as an exact rational; for every measurement it is the
exact quotient by 1048576 of the byte count as converted to `float64`, and it depends
on the byte count alone, not on the URL, the duration or the date. -/
theorem getMegabytes_spec (m : speedTestData) :
    (|m.Bytes| ≤ 9007199254740992 → getMegabytes m = F64.fin ((m.Bytes : ℚ) / 1048576))
    ∧ getMegabytes m = F64.fin ((F64.ofInt m.Bytes).toRat / 1048576)
    ∧ ∀ (url : String) (ms : Int) (date : Time),
        getMegabytes ⟨url, m.Bytes, ms, date⟩ = getMegabytes m := by
  refine ⟨?_, getMegabytes_val m, fun _ _ _ => rfl⟩
  intro h
  rw [getMegabytes_val, F64.ofInt_exact m.Bytes h]
  rfl

/-- Witness of the amended C1 at the 100 MiB / 10 s measurement. -/
theorem getMegabytes_spec_witness :
    |(scenario "u" Time.zero).Bytes| ≤ 9007199254740992
    ∧ getMegabytes (scenario "u" Time.zero)
        = F64.fin (((scenario "u" Time.zero).Bytes : ℚ) / 1048576) :=
  ⟨by decide, (getMegabytes_spec (scenario "u" Time.zero)).1 (by decide)⟩

/-- C1 fails as stated: `float64(2 ^ 53 + 1)` is `2 ^ 53`, so for 9007199254740993 bytes
`getMegabytes` is 8589934592 and not 9007199254740993 / 1048576. -/
theorem getMegabytes_inexact :
    getMegabytes ⟨"u", 9007199254740993, 1000, Time.zero⟩ = F64.fin 8589934592
    ∧ getMegabytes ⟨"u", 9007199254740993, 1000, Time.zero⟩
        ≠ F64.fin (((⟨"u", 9007199254740993, 1000, Time.zero⟩ : speedTestData).Bytes : ℚ)
            / 1048576) := by
  have hnum : (F64.ofInt 9007199254740993).toRat.num = 9007199254740992 := by
    with_unfolding_all decide
  have hden : (F64.ofInt 9007199254740993).toRat.den = 1 := by
    with_unfolding_all decide
  have hval : (F64.ofInt 9007199254740993).toRat = 9007199254740992 := by
    rw [← Rat.num_div_den (F64.ofInt 9007199254740993).toRat, hnum, hden]
    norm_num
  have hmb : getMegabytes ⟨"u", 9007199254740993, 1000, Time.zero⟩ = F64.fin 8589934592 := by
    rw [getMegabytes_val]
    show F64.fin ((F64.ofInt 9007199254740993).toRat / 1048576) = _
    rw [hval]
    norm_num
  refine ⟨hmb, ?_⟩
  rw [hmb]
  intro h
  have h2 := F64.fin.inj h
  norm_num at h2

/-- C2: `getMegabits` is `getMegabytes` multiplied by 8, both as float operations and
as exact values, although it redoes the division instead of calling `getMegabytes`. -/
theorem getMegabits_spec (m : speedTestData) :
    getMegabits m = F64.mul (getMegabytes m) (F64.ofInt 8)
    ∧ getMegabits m = F64.fin ((getMegabytes m).toRat * 8) := by
  refine ⟨rfl, ?_⟩
  rw [getMegabits_val, getMegabytes_val]
  rfl

/-- C3: when `getSeconds m` is positive, which means `m.Milliseconds > 0`,
`getMegabitsPerSecond m` is the float quotient `getMegabits m / getSeconds m`, where
`getSeconds m` is the float quotient `float64(m.Milliseconds) / 1000`. Each float
quotient is the exact quotient of its operands rounded to the nearest `float64`: it is
a finite number within the fraction `2 ^ -53` of the exact quotient. -/
theorem getMegabitsPerSecond_spec (m : speedTestData)
    (h : F64.lt (F64.ofInt 0) (getSeconds m) = true) :
    0 < m.Milliseconds
    ∧ getSeconds m = F64.div (F64.ofInt m.Milliseconds) (F64.ofInt 1000)
    ∧ getSeconds m = F64.round ((F64.ofInt m.Milliseconds).toRat / 1000)
    ∧ (m.Milliseconds ≤ 9007199254740992 →
        getSeconds m = F64.round ((m.Milliseconds : ℚ) / 1000)
        ∧ |(getSeconds m).toRat - (m.Milliseconds : ℚ) / 1000|
            ≤ (m.Milliseconds : ℚ) / 1000 * (2 : ℚ) ^ (-53 : Int))
    ∧ getMegabitsPerSecond m = F64.div (getMegabits m) (getSeconds m)
    ∧ getMegabitsPerSecond m = F64.round ((getMegabits m).toRat / (getSeconds m).toRat)
    ∧ ∃ r, getMegabitsPerSecond m = F64.fin r
        ∧ |r - (getMegabits m).toRat / (getSeconds m).toRat|
            ≤ |(getMegabits m).toRat / (getSeconds m).toRat| * (2 : ℚ) ^ (-53 : Int) := by
  have hpos : 0 < m.Milliseconds := by
    rcases lt_trichotomy m.Milliseconds 0 with hlt | heq | hgt
    · obtain ⟨s, hs, hneg⟩ := getSeconds_neg m hlt
      rw [hs, F64.ofInt_zero] at h
      simp only [F64.lt, F64.toRat, decide_eq_true_eq] at h
      exact absurd h (not_lt.mpr hneg.le)
    · rw [getSeconds_zero m heq, F64.ofInt_zero] at h
      simp [F64.lt, F64.toRat] at h
    · exact hgt
  obtain ⟨s, hs, s1, s2⟩ := getSeconds_pos m hpos
  obtain ⟨hb, _, _, _⟩ := bytes_range m.Bytes 8 (Or.inr rfl)
  obtain ⟨hdiv, r, hr, _, herr⟩ := rate_spec _ s hb s1 s2
  have hrate : getMegabitsPerSecond m
      = F64.div (F64.fin ((F64.ofInt m.Bytes).toRat / 1048576 * 8)) (F64.fin s) := by
    rw [getMegabitsPerSecond, getMegabits_val, hs]
  refine ⟨hpos, rfl, getSeconds_round m, ?_, rfl, ?_, r, by rw [hrate, hr], ?_⟩
  · intro hle
    have habs : |m.Milliseconds| ≤ 9007199254740992 := by
      rw [abs_le]; omega
    have hround : getSeconds m = F64.round ((m.Milliseconds : ℚ) / 1000) := by
      rw [getSeconds_round, F64.ofInt_exact _ habs]
      rfl
    refine ⟨hround, ?_⟩
    have hmq : (0 : ℚ) < (m.Milliseconds : ℚ) := by exact_mod_cast hpos
    have h1 : (1 : ℚ) ≤ |(m.Milliseconds : ℚ)| := by
      rw [abs_of_pos hmq]; exact_mod_cast hpos
    have h2 : |(m.Milliseconds : ℚ)| ≤ 9223372036854775808 := by
      rw [abs_of_pos hmq]
      have : m.Milliseconds ≤ 9223372036854775808 := by omega
      exact_mod_cast this
    obtain ⟨b1, b2⟩ := seconds_bracket _ h1 h2
    have herr2 := F64.round_error _ (-10) 54 (by decide) (by decide) b1 b2
    rw [abs_of_pos (div_pos hmq (by norm_num : (0 : ℚ) < 1000))] at herr2
    rw [hround]
    exact herr2
  · rw [hrate, hdiv, getMegabits_val, hs]
    rfl
  · rw [getMegabits_val, hs]
    exact herr

/-- Witness of C3 at the 100 MiB / 10 s measurement. -/
theorem getMegabitsPerSecond_spec_witness :
    F64.lt (F64.ofInt 0) (getSeconds (scenario "u" Time.zero)) = true
    ∧ getMegabitsPerSecond (scenario "u" Time.zero)
        = F64.div (getMegabits (scenario "u" Time.zero)) (getSeconds (scenario "u" Time.zero)) :=
  ⟨by with_unfolding_all decide,
   (getMegabitsPerSecond_spec (scenario "u" Time.zero) (by with_unfolding_all decide)).2.2.2.2.1⟩

theorem F64.round_10 : F64.round 10 = F64.fin 10 := by
  with_unfolding_all decide

theorem F64.round_80 : F64.round 80 = F64.fin 80 := by
  with_unfolding_all decide

/-- C4: for 104857600 bytes in 10000 ms the converter gives 100 MB, 10 s, 80 Mbps and
10 MBps, and the row written by `writeData` carries `100.00`, `10.00`, `80.00` and
`10.00` in the megabytes, seconds, Mbps and MBps fields. -/
theorem scenario_row (url : String) (date : Time) :
    getMegabytes (scenario url date) = F64.fin 100
    ∧ getSeconds (scenario url date) = F64.fin 10
    ∧ getMegabitsPerSecond (scenario url date) = F64.fin 80
    ∧ getMegabytesPerSecond (scenario url date) = F64.fin 10
    ∧ FormatFloat (getMegabytes (scenario url date)) = ['1', '0', '0', '.', '0', '0']
    ∧ FormatFloat (getSeconds (scenario url date)) = ['1', '0', '.', '0', '0']
    ∧ FormatFloat (getMegabitsPerSecond (scenario url date)) = ['8', '0', '.', '0', '0']
    ∧ FormatFloat (getMegabytesPerSecond (scenario url date)) = ['1', '0', '.', '0', '0']
    ∧ csvLine (scenario url date)
        = date.Format ++ ",104857600,100.00,10000,10.00,80.00,10.00\n".toList := by
  have hbytes : F64.ofInt (scenario url date).Bytes = F64.fin 104857600 := by
    have h := F64.ofInt_exact 104857600 (by norm_num)
    simpa [scenario] using h
  have hmillis : F64.ofInt (scenario url date).Milliseconds = F64.fin 10000 := by
    have h := F64.ofInt_exact 10000 (by norm_num)
    simpa [scenario] using h
  have h1 : getMegabytes (scenario url date) = F64.fin 100 := by
    rw [getMegabytes_val, hbytes]; simp only [F64.toRat]; norm_num
  have h2 : getSeconds (scenario url date) = F64.fin 10 := by
    rw [getSeconds_round, hmillis]; simp only [F64.toRat]
    rw [show (10000 : ℚ) / 1000 = 10 by norm_num, F64.round_10]
  have hbits : getMegabits (scenario url date) = F64.fin 800 := by
    rw [getMegabits_val, hbytes]; simp only [F64.toRat]; norm_num
  have h3 : getMegabitsPerSecond (scenario url date) = F64.fin 80 := by
    rw [getMegabitsPerSecond, hbits, h2, F64.div_fin_pos _ _ (by norm_num),
      show (800 : ℚ) / 10 = 80 by norm_num, F64.round_80]
  have h4 : getMegabytesPerSecond (scenario url date) = F64.fin 10 := by
    rw [getMegabytesPerSecond, h1, h2, F64.div_fin_pos _ _ (by norm_num),
      show (100 : ℚ) / 10 = 10 by norm_num, F64.round_10]
  have f100 : FormatFloat (F64.fin 100) = ['1', '0', '0', '.', '0', '0'] := by
    with_unfolding_all decide
  have f10 : FormatFloat (F64.fin 10) = ['1', '0', '.', '0', '0'] := by
    with_unfolding_all decide
  have f80 : FormatFloat (F64.fin 80) = ['8', '0', '.', '0', '0'] := by
    with_unfolding_all decide
  have hb : Itoa (scenario url date).Bytes = "104857600".toList := by
    show Itoa 104857600 = _
    decide
  have hm : Itoa (scenario url date).Milliseconds = "10000".toList := by
    show Itoa 10000 = _
    decide
  refine ⟨h1, h2, h3, h4, by rw [h1, f100], by rw [h2, f10], by rw [h3, f80],
    by rw [h4, f10], ?_⟩
  simp only [csvLine, dataText, h1, h2, h3, h4, f100, f10, f80, hb, hm]
  simp
  rfl

/-! ## Sample values of the float arithmetic -/

/-- One millisecond: `1 / 1000` is no `float64`; `getSeconds` is the nearest one,
`1152921504606847 / 2 ^ 60`. -/
theorem getSeconds_one_ms :
    (getSeconds ⟨"u", 0, 1, Time.zero⟩).toRat.num = 1152921504606847
    ∧ ((getSeconds ⟨"u", 0, 1, Time.zero⟩).toRat.den : Int) = 1152921504606846976 := by
  with_unfolding_all decide

/-- A rate that is rounded: 1000000 bytes in 3 ms. -/
theorem getMegabitsPerSecond_three_ms :
    (getMegabitsPerSecond ⟨"u", 1000000, 3, Time.zero⟩).toRat.num = 5592405333333333
    ∧ ((getMegabitsPerSecond ⟨"u", 1000000, 3, Time.zero⟩).toRat.den : Int) = 2199023255552 := by
  with_unfolding_all decide

/-- Durations whose seconds field shows the rounding of the division: 5 ms prints as
`0.01` and 1015 ms as `1.01`. -/
theorem seconds_field_rounding :
    FormatFloat (getSeconds ⟨"u", 1000000, 5, Time.zero⟩) = ['0', '.', '0', '1']
    ∧ FormatFloat (getSeconds ⟨"u", 1000000, 1015, Time.zero⟩) = ['1', '.', '0', '1'] := by
  with_unfolding_all decide

/-! ## Facts about the text formatting -/

theorem digitChar_isDigit : ∀ d, d < 10 → (Nat.digitChar d).isDigit = true := by
  decide

theorem toDigitsCore_digits (fuel : Nat) : ∀ (n : Nat) (acc : List Char),
    ∃ pre, Nat.toDigitsCore 10 fuel n acc = pre ++ acc
      ∧ (∀ c ∈ pre, c.isDigit = true) ∧ (0 < fuel → pre ≠ []) := by
  induction fuel with
  | zero => intro n acc; exact ⟨[], by simp [Nat.toDigitsCore]⟩
  | succ k ih =>
    intro n acc
    have hd : (Nat.digitChar (n % 10)).isDigit = true :=
      digitChar_isDigit _ (Nat.mod_lt _ (by decide))
    by_cases h0 : n / 10 = 0
    · refine ⟨[Nat.digitChar (n % 10)], ?_, ?_, ?_⟩
      · simp [Nat.toDigitsCore, h0]
      · intro c hc
        simp only [List.mem_singleton] at hc
        rw [hc]; exact hd
      · intro _; simp
    · obtain ⟨pre, hpre, hdig, _⟩ := ih (n / 10) (Nat.digitChar (n % 10) :: acc)
      refine ⟨pre ++ [Nat.digitChar (n % 10)], ?_, ?_, ?_⟩
      · simp [Nat.toDigitsCore, h0, hpre]
      · intro c hc
        rcases List.mem_append.mp hc with h | h
        · exact hdig c h
        · simp only [List.mem_singleton] at h
          rw [h]; exact hd
      · intro _; simp

theorem decimal_digits (n : Nat) : ∀ c ∈ decimal n, c.isDigit = true := by
  obtain ⟨pre, hpre, hdig, _⟩ := toDigitsCore_digits (n + 1) n []
  intro c hc
  have : decimal n = pre := by simpa [decimal, Nat.toDigits] using hpre
  rw [this] at hc
  exact hdig c hc

theorem decimal_ne_nil (n : Nat) : decimal n ≠ [] := by
  obtain ⟨pre, hpre, _, hne⟩ := toDigitsCore_digits (n + 1) n []
  have : decimal n = pre := by simpa [decimal, Nat.toDigits] using hpre
  rw [this]
  exact hne (Nat.succ_pos n)

theorem digitChar_value : ∀ d, d < 10 → (Nat.digitChar d).toNat - '0'.toNat = d := by
  decide

theorem digitChar_ne_minus : ∀ d, d < 10 → Nat.digitChar d ≠ '-' := by
  decide

theorem toDigitsCore_value (fuel : Nat) : ∀ (n : Nat) (acc : List Char), n < fuel →
    (Nat.toDigitsCore 10 fuel n acc).foldl (fun a c => 10 * a + (c.toNat - '0'.toNat)) 0
      = acc.foldl (fun a c => 10 * a + (c.toNat - '0'.toNat)) n := by
  induction fuel with
  | zero => intro n acc h; omega
  | succ k ih =>
    intro n acc h
    have hv := digitChar_value (n % 10) (Nat.mod_lt _ (by decide))
    by_cases h0 : n / 10 = 0
    · have hn : n % 10 = n := by omega
      simp only [Nat.toDigitsCore, h0, if_true, List.foldl_cons, hv]
      rw [hn]; simp
    · have hlt : n / 10 < k := by omega
      simp only [Nat.toDigitsCore, h0, if_false]
      rw [ih (n / 10) _ hlt]
      simp only [List.foldl_cons, hv]
      have : 10 * (n / 10) + n % 10 = n := by omega
      rw [this]

theorem decimalValue_decimal (n : Nat) : decimalValue (decimal n) = n := by
  have h := toDigitsCore_value (n + 1) n [] (Nat.lt_succ_self n)
  simpa [decimalValue, decimal, Nat.toDigits] using h

theorem decimal_head_ne_minus (n : Nat) : ∀ rest, decimal n ≠ '-' :: rest := by
  intro rest h
  have hd := decimal_digits n '-' (by rw [h]; simp)
  exact absurd hd (by decide)

theorem signedValue_Itoa (n : Int) : signedValue (Itoa n) = n := by
  unfold Itoa
  split
  · next h =>
    simp only [signedValue, decimalValue_decimal]
    omega
  · next h =>
    have hv : signedValue (decimal n.natAbs) = (decimalValue (decimal n.natAbs) : Int) := by
      unfold signedValue
      split
      · next rest heq => exact absurd heq (decimal_head_ne_minus _ _)
      · rfl
    rw [hv, decimalValue_decimal]
    omega

theorem isSep_not_digit (c : Char) (h : isSep c = true) : c.isDigit = false := by
  simp only [isSep, Bool.or_eq_true, beq_iff_eq] at h
  rcases h with rfl | rfl <;> decide

theorem sep_not_mem_decimal (c : Char) (h : isSep c = true) (n : Nat) : c ∉ decimal n := by
  intro hc
  have := decimal_digits n c hc
  rw [isSep_not_digit c h] at this
  exact Bool.noConfusion this

theorem sep_not_mem_Itoa (c : Char) (h : isSep c = true) (n : Int) : c ∉ Itoa n := by
  have hd := sep_not_mem_decimal c h n.natAbs
  have hm : c ≠ '-' := by
    simp only [isSep, Bool.or_eq_true, beq_iff_eq] at h
    rcases h with rfl | rfl <;> decide
  unfold Itoa
  split
  · simp [hd, hm]
  · exact hd

theorem sep_not_mem_appendInt (c : Char) (h : isSep c = true) (x : Int) (width : Nat) :
    c ∉ appendInt x width := by
  have hd := sep_not_mem_decimal c h x.natAbs
  have hm : c ≠ '-' ∧ c ≠ '0' := by
    simp only [isSep, Bool.or_eq_true, beq_iff_eq] at h
    rcases h with rfl | rfl <;> decide
  unfold appendInt zeroPad
  intro hc
  rcases List.mem_append.mp hc with h1 | h1
  · split at h1
    · simp only [List.mem_singleton] at h1
      exact hm.1 h1
    · simp at h1
  · rcases List.mem_append.mp h1 with h2 | h2
    · exact hm.2 (List.eq_of_mem_replicate h2)
    · exact hd h2

theorem sep_not_mem_Format (c : Char) (h : isSep c = true) (t : Time) : c ∉ t.Format := by
  have hm : c ≠ '-' ∧ c ≠ ' ' ∧ c ≠ ':' := by
    simp only [isSep, Bool.or_eq_true, beq_iff_eq] at h
    rcases h with rfl | rfl <;> decide
  have ha := sep_not_mem_appendInt c h
  simp only [Time.Format, List.mem_append, List.mem_singleton, not_or]
  exact ⟨⟨⟨⟨⟨⟨⟨⟨⟨⟨ha _ _, hm.1⟩, ha _ _⟩, hm.1⟩, ha _ _⟩, hm.2.1⟩, ha _ _⟩, hm.2.2⟩,
    ha _ _⟩, hm.2.2⟩, ha _ _⟩

theorem sep_not_mem_FormatFloat (c : Char) (h : isSep c = true) (x : F64) :
    c ∉ FormatFloat x := by
  have hd := sep_not_mem_decimal c h
  have hc : c = ',' ∨ c = '\n' := by
    simpa only [isSep, Bool.or_eq_true, beq_iff_eq] using h
  cases x with
  | nan => rcases hc with rfl | rfl <;> simp [FormatFloat]
  | posInf => rcases hc with rfl | rfl <;> simp [FormatFloat]
  | negInf => rcases hc with rfl | rfl <;> simp [FormatFloat]
  | negZero => rcases hc with rfl | rfl <;> simp [FormatFloat]
  | fin q =>
    have hm : c ≠ '-' ∧ c ≠ '0' ∧ c ≠ '.' := by
      rcases hc with rfl | rfl <;> decide
    simp only [FormatFloat, zeroPad]
    intro hmem
    rcases List.mem_append.mp hmem with h1 | h1
    · rcases List.mem_append.mp h1 with h2 | h2
      · rcases List.mem_append.mp h2 with h3 | h3
        · split at h3
          · simp only [List.mem_singleton] at h3
            exact hm.1 h3
          · simp at h3
        · exact hd _ h3
      · simp only [List.mem_singleton] at h2
        exact hm.2.2 h2
    · rcases List.mem_append.mp h1 with h2 | h2
      · exact hm.2.1 (List.eq_of_mem_replicate h2)
      · exact hd _ h2

theorem sep_not_mem_fields (c : Char) (h : isSep c = true) (m : speedTestData) :
    ∀ l ∈ fields m, c ∉ l := by
  intro l hl
  simp only [fields, List.mem_cons, List.mem_singleton, List.not_mem_nil, or_false] at hl
  rcases hl with rfl | rfl | rfl | rfl | rfl | rfl | rfl
  · exact sep_not_mem_Format c h _
  · exact sep_not_mem_Itoa c h _
  · exact sep_not_mem_FormatFloat c h _
  · exact sep_not_mem_Itoa c h _
  · exact sep_not_mem_FormatFloat c h _
  · exact sep_not_mem_FormatFloat c h _
  · exact sep_not_mem_FormatFloat c h _

theorem dataText_eq_intercalate (m : speedTestData) :
    dataText m = [','].intercalate (fields m) := by
  simp [dataText, fields, List.intercalate, List.intersperse, List.flatten]

theorem newline_not_mem_dataText (m : speedTestData) : '\n' ∉ dataText m := by
  have h := sep_not_mem_fields '\n' (by decide) m
  simp only [fields, List.mem_cons, List.mem_singleton, List.not_mem_nil, or_false,
    forall_eq_or_imp, forall_eq] at h
  simp only [dataText, List.nil_append, List.mem_append, List.mem_singleton, not_or]
  have hc : '\n' ≠ ',' := by decide
  tauto

theorem rowCount_csvLine (m : speedTestData) : rowCount (csvLine m) = 1 := by
  simp [rowCount, csvLine, List.count_append, List.count_eq_zero.mpr (newline_not_mem_dataText m)]

theorem zeroPad_two : ∀ k, k < 100 →
    (zeroPad 2 (decimal k)).length = 2 ∧ (zeroPad 2 (decimal k)).all Char.isDigit = true := by
  decide

theorem isFixed2_of_parts (a f : List Char) (ha : a ≠ []) (hd : ∀ c ∈ a, c.isDigit = true)
    (hlen : f.length = 2) (hf : f.all Char.isDigit = true) :
    isFixed2 (a ++ ['.'] ++ f) = true := by
  match f, hlen with
  | [d1, d2], _ =>
    simp only [List.all_cons, List.all_nil, Bool.and_true, Bool.and_eq_true] at hf
    have hrev : (a ++ ['.'] ++ [d1, d2]).reverse = d2 :: d1 :: '.' :: a.reverse := by simp
    have hne : a.reverse.isEmpty = false := by
      cases a with
      | nil => exact absurd rfl ha
      | cons x xs => simp
    have hall : a.reverse.all Char.isDigit = true := by
      simp only [List.all_eq_true, List.mem_reverse]
      exact hd
    simp [isFixed2, hrev, hf.1, hf.2, hne, hall]

theorem isFixed2_FormatFloat_nonneg (q : ℚ) (hq : 0 ≤ q) :
    isFixed2 (FormatFloat (F64.fin q)) = true := by
  have hn : ¬ q < 0 := not_lt.mpr hq
  have hz := zeroPad_two (roundHalfEven (|q| * 100) % 100) (Nat.mod_lt _ (by decide))
  simp only [FormatFloat, hn, if_false, List.nil_append]
  exact isFixed2_of_parts _ _ (decimal_ne_nil _) (decimal_digits _) hz.1 hz.2

/-! ## Claims on the CSV row -/

/-- C5: the text built by `writeData` is one line: it ends in a newline, which is its
only newline, and without it the text splits on commas into exactly seven fields, in
the order timestamp, bytes, megabytes, milliseconds, seconds, Mbps, MBps; the bytes
and milliseconds fields are the decimal renderings of `m.Bytes` and `m.Milliseconds`,
which read back as these integers. -/
theorem csvLine_fields (m : speedTestData) :
    (csvLine m).getLast? = some '\n'
    ∧ (csvLine m).count '\n' = 1
    ∧ (csvLine m).dropLast.splitOn ','
        = [m.Date.Format, Itoa m.Bytes, FormatFloat (getMegabytes m), Itoa m.Milliseconds,
           FormatFloat (getSeconds m), FormatFloat (getMegabitsPerSecond m),
           FormatFloat (getMegabytesPerSecond m)]
    ∧ ((csvLine m).dropLast.splitOn ',').length = 7
    ∧ signedValue (Itoa m.Bytes) = m.Bytes
    ∧ signedValue (Itoa m.Milliseconds) = m.Milliseconds := by
  have hdrop : (csvLine m).dropLast = dataText m := by
    simp [csvLine]
  have hsplit : (dataText m).splitOn ',' = fields m := by
    rw [dataText_eq_intercalate]
    exact List.splitOn_intercalate (fields m) ',' (sep_not_mem_fields ',' (by decide) m)
      (List.cons_ne_nil _ _)
  refine ⟨by simp [csvLine], rowCount_csvLine m, ?_, ?_, signedValue_Itoa _, signedValue_Itoa _⟩
  · rw [hdrop, hsplit]; rfl
  · rw [hdrop, hsplit]; rfl

/-- C6, amended: for a measurement with `Bytes ≥ 0` and `Milliseconds ≥ 0` the megabytes
and seconds fields are well-formed two-decimal numbers, and so are the Mbps and MBps
fields when `Milliseconds > 0`; when `Milliseconds = 0` these two fields are the text
`+Inf` (for `Bytes > 0`) or `NaN` (for `Bytes = 0`). -/
theorem float_fields_wellformed (m : speedTestData)
    (hb : 0 ≤ m.Bytes) (hm : 0 ≤ m.Milliseconds) :
    isFixed2 (FormatFloat (getMegabytes m)) = true
    ∧ isFixed2 (FormatFloat (getSeconds m)) = true
    ∧ (0 < m.Milliseconds →
        isFixed2 (FormatFloat (getMegabitsPerSecond m)) = true
        ∧ isFixed2 (FormatFloat (getMegabytesPerSecond m)) = true)
    ∧ (m.Milliseconds = 0 → 0 < m.Bytes →
        FormatFloat (getMegabitsPerSecond m) = ['+', 'I', 'n', 'f']
        ∧ FormatFloat (getMegabytesPerSecond m) = ['+', 'I', 'n', 'f'])
    ∧ (m.Milliseconds = 0 → m.Bytes = 0 →
        FormatFloat (getMegabitsPerSecond m) = ['N', 'a', 'N']
        ∧ FormatFloat (getMegabytesPerSecond m) = ['N', 'a', 'N']) := by
  obtain ⟨hbits, hbits0, hbitsPos, hbitsZero⟩ := bytes_range m.Bytes 8 (Or.inr rfl)
  obtain ⟨hbytes, hbytes0, hbytesPos, hbytesZero⟩ := bytes_range m.Bytes 1 (Or.inl rfl)
  rw [mul_one] at hbytes hbytes0 hbytesPos hbytesZero
  have hsec : ∃ s, getSeconds m = F64.fin s ∧ 0 ≤ s := by
    rcases lt_or_eq_of_le hm with hpos | hzero
    · obtain ⟨s, hs, s1, _⟩ := getSeconds_pos m hpos
      exact ⟨s, hs, le_trans (two_zpow_pos _).le s1⟩
    · exact ⟨0, getSeconds_zero m hzero.symm, le_refl 0⟩
  refine ⟨?_, ?_, ?_, ?_, ?_⟩
  · rw [getMegabytes_val]
    exact isFixed2_FormatFloat_nonneg _ (hbytes0 hb)
  · obtain ⟨s, hs, hs0⟩ := hsec
    rw [hs]
    exact isFixed2_FormatFloat_nonneg _ hs0
  · intro hpos
    obtain ⟨s, hs, s1, s2⟩ := getSeconds_pos m hpos
    obtain ⟨_, r1, hr1, hr1n, _⟩ := rate_spec _ s hbits s1 s2
    obtain ⟨_, r2, hr2, hr2n, _⟩ := rate_spec _ s hbytes s1 s2
    rw [getMegabitsPerSecond, getMegabytesPerSecond, getMegabits_val, getMegabytes_val, hs,
      hr1, hr2]
    exact ⟨isFixed2_FormatFloat_nonneg _ (hr1n (hbits0 hb)),
      isFixed2_FormatFloat_nonneg _ (hr2n (hbytes0 hb))⟩
  · intro h0 hpos
    rw [getMegabitsPerSecond, getMegabytesPerSecond, getMegabits_val, getMegabytes_val,
      getSeconds_zero m h0, F64.div_fin_zero_pos _ (hbitsPos hpos),
      F64.div_fin_zero_pos _ (hbytesPos hpos)]
    exact ⟨rfl, rfl⟩
  · intro h0 hb0
    rw [getMegabitsPerSecond, getMegabytesPerSecond, getMegabits_val, getMegabytes_val,
      getSeconds_zero m h0, hbitsZero hb0, hbytesZero hb0, F64.div_zero_zero]
    exact ⟨rfl, rfl⟩

/-- Witness of the amended C6 at the 100 MiB / 10 s measurement. -/
theorem float_fields_wellformed_witness :
    (0 : Int) ≤ (scenario "u" Time.zero).Bytes ∧ (0 : Int) ≤ (scenario "u" Time.zero).Milliseconds
    ∧ isFixed2 (FormatFloat (getMegabytes (scenario "u" Time.zero))) = true :=
  ⟨by decide, by decide,
   (float_fields_wellformed (scenario "u" Time.zero) (by decide) (by decide)).1⟩

/-- C6 fails as stated: 5 bytes in 0 ms is a measurement with `Bytes ≥ 0` and
`Milliseconds ≥ 0` whose Mbps field is the text `+Inf`, not a two-decimal number. -/
theorem float_field_malformed :
    (0 : Int) ≤ (⟨"u", 5, 0, Time.zero⟩ : speedTestData).Bytes
    ∧ (0 : Int) ≤ (⟨"u", 5, 0, Time.zero⟩ : speedTestData).Milliseconds
    ∧ FormatFloat (getMegabitsPerSecond ⟨"u", 5, 0, Time.zero⟩) = ['+', 'I', 'n', 'f']
    ∧ isFixed2 (FormatFloat (getMegabitsPerSecond ⟨"u", 5, 0, Time.zero⟩)) = false
    ∧ (csvLine ⟨"u", 5, 0, Time.zero⟩)
        = "0001-01-01 00:00:00,5,0.00,0,0.00,+Inf,+Inf\n".toList := by
  with_unfolding_all decide

/-! ## Claims on the logger -/

theorem writeData_ok (sys : FileCalls) (w : World) (filename : String) (m : speedTestData)
    (h : (writeData sys w filename m).2 = none) :
    (writeData sys w filename m).1.files
      = fun n => if n = filename then some ((w.files filename).getD [] ++ csvLine m)
                 else w.files n := by
  unfold writeData at h ⊢
  cases ho : sys.openErr with
  | some e => simp [ho] at h
  | none =>
    cases hw : sys.writeErr with
    | some p => simp [ho, hw] at h
    | none =>
      funext n
      by_cases hn : n = filename <;> simp [World.log, World.setFile, hn]

theorem writeAll_ok (filename : String) (runs : List (FileCalls × speedTestData)) :
    ∀ w : World, (writeAll filename runs w).2 = none →
      ((writeAll filename runs w).1.files filename).getD []
          = (w.files filename).getD [] ++ (runs.map fun r => csvLine r.2).flatten
      ∧ ∀ other, other ≠ filename → (writeAll filename runs w).1.files other = w.files other := by
  induction runs with
  | nil => intro w _; simp [writeAll]
  | cons r rest ih =>
    intro w h
    obtain ⟨sys, m⟩ := r
    cases hr : writeData sys w filename m with
    | mk w1 e =>
      cases e with
      | some err => simp [writeAll, hr] at h
      | none =>
        have hfiles := writeData_ok sys w filename m (by rw [hr])
        rw [hr] at hfiles
        simp only at hfiles
        have h1 : (writeAll filename rest w1).2 = none := by
          simpa [writeAll, hr] using h
        obtain ⟨hc, ho⟩ := ih w1 h1
        have hstep : writeAll filename ((sys, m) :: rest) w = writeAll filename rest w1 := by
          simp [writeAll, hr]
        rw [hstep]
        refine ⟨?_, ?_⟩
        · rw [hc, hfiles]
          simp [List.append_assoc]
        · intro other hne
          rw [ho other hne, hfiles]
          simp [hne]

theorem rowCount_append (a b : List Char) : rowCount (a ++ b) = rowCount a + rowCount b := by
  simp [rowCount, List.count_append]

theorem rowCount_rows (runs : List (FileCalls × speedTestData)) :
    rowCount (runs.map fun r => csvLine r.2).flatten = runs.length := by
  induction runs with
  | nil => rfl
  | cons r rest ih =>
    simp only [List.map_cons, List.flatten_cons, rowCount_append, ih, rowCount_csvLine,
      List.length_cons]
    omega

/-- C7: a successful `writeData` leaves the file equal to its prior content followed by
the one new line (an absent file counts as empty) and touches no other file; hence a
sequence of `N` successful appends leaves the prior content as a prefix, followed by
the `N` rows in order, and the number of rows grows by exactly `N` (so `N` rows from an
empty or absent file, two more rows after two appends to an existing one). -/
theorem writeData_appends (filename : String) (w : World)
    (runs : List (FileCalls × speedTestData))
    (h : (writeAll filename runs w).2 = none) :
    (∀ sys m, (writeData sys w filename m).2 = none →
        (writeData sys w filename m).1.files filename
            = some ((w.files filename).getD [] ++ csvLine m)
        ∧ rowCount (csvLine m) = 1
        ∧ ∀ other, other ≠ filename →
            (writeData sys w filename m).1.files other = w.files other)
    ∧ ((writeAll filename runs w).1.files filename).getD []
        = (w.files filename).getD [] ++ (runs.map fun r => csvLine r.2).flatten
    ∧ (w.files filename).getD [] <+: ((writeAll filename runs w).1.files filename).getD []
    ∧ rowCount (((writeAll filename runs w).1.files filename).getD [])
        = rowCount ((w.files filename).getD []) + runs.length
    ∧ ((w.files filename = none ∨ w.files filename = some []) →
        rowCount (((writeAll filename runs w).1.files filename).getD []) = runs.length)
    ∧ ∀ other, other ≠ filename → (writeAll filename runs w).1.files other = w.files other := by
  obtain ⟨hc, ho⟩ := writeAll_ok filename runs w h
  refine ⟨?_, hc, ?_, ?_, ?_, ho⟩
  · intro sys m hok
    have hf := writeData_ok sys w filename m hok
    refine ⟨by rw [hf]; simp, rowCount_csvLine m, ?_⟩
    intro other hne
    rw [hf]; simp [hne]
  · rw [hc]; exact List.prefix_append _ _
  · rw [hc, rowCount_append, rowCount_rows]
  · intro hempty
    have h0 : (w.files filename).getD [] = [] := by
      rcases hempty with h1 | h1 <;> rw [h1] <;> rfl
    rw [hc, h0, List.nil_append, rowCount_rows]

/-- Witness of C7: two successful appends to an absent file give two rows. -/
theorem writeData_appends_witness :
    (writeAll "speedtest.csv" twoRuns World.empty).2 = none
    ∧ rowCount (((writeAll "speedtest.csv" twoRuns World.empty).1.files "speedtest.csv").getD [])
        = rowCount ((World.empty.files "speedtest.csv").getD []) + twoRuns.length :=
  ⟨rfl, (writeData_appends "speedtest.csv" World.empty twoRuns rfl).2.2.2.1⟩

/-! ## Claims on the prober -/

theorem tdiv_million (n : Int) :
    Int.tdiv n 1000000 = if 0 ≤ n then n / 1000000 else -((-n) / 1000000) := by
  split
  · next h => exact Int.tdiv_eq_ediv h (by decide)
  · next h =>
    have h1 : (0 : Int) ≤ -n := by omega
    have h2 := Int.tdiv_eq_ediv h1 (by decide : (0 : Int) ≤ 1000000)
    rw [Int.neg_tdiv] at h2
    omega

theorem elapsed_in_range (s e : Int) (hs : isInt64 s) (he : isInt64 e) :
    wrapInt64 (Int.tdiv e 1000000 - Int.tdiv s 1000000)
      = Int.tdiv e 1000000 - Int.tdiv s 1000000 := by
  unfold isInt64 at hs he
  rw [tdiv_million, tdiv_million]
  unfold wrapInt64
  split <;> split <;> omega

theorem tdiv_million_mono (s e : Int) (h : s ≤ e) :
    Int.tdiv s 1000000 ≤ Int.tdiv e 1000000 := by
  rw [tdiv_million, tdiv_million]
  split <;> split <;> omega

theorem withContext_error (env : ProbeEnv) (url : String)
    (h : (speedTestMemoryWithContext env url).2 ≠ none) :
    (speedTestMemoryWithContext env url).1 = ⟨url, -1, -1, env.now⟩ := by
  unfold speedTestMemoryWithContext at h ⊢
  cases hd : env.doErr with
  | some e => rfl
  | none =>
    cases hc : env.ctxErr with
    | some e => rfl
    | none =>
      cases hr : env.readErr with
      | some e => rfl
      | none => simp [hd, hc, hr] at h

theorem withContext_success (env : ProbeEnv) (url : String)
    (h : (speedTestMemoryWithContext env url).2 = none) :
    (speedTestMemoryWithContext env url).1
      = ⟨url, (env.body.length : Int),
          wrapInt64 (Int.tdiv env.endNano 1000000 - Int.tdiv env.startNano 1000000), env.now⟩ := by
  unfold speedTestMemoryWithContext at h ⊢
  cases hd : env.doErr with
  | some e => simp [hd] at h
  | none =>
    cases hc : env.ctxErr with
    | some e => simp [hd, hc] at h
    | none =>
      cases hr : env.readErr with
      | some e => simp [hd, hc, hr] at h
      | none => rfl

theorem memory_error (env : ProbeEnv) (url : String)
    (h : (speedTestMemory env url).2 ≠ none) :
    (speedTestMemory env url).1 = ⟨url, -1, -1, env.now⟩ := by
  unfold speedTestMemory at h ⊢
  cases hd : env.doErr with
  | some e => rfl
  | none =>
    cases hr : env.readErr with
    | some e => rfl
    | none => simp [hd, hr] at h

theorem memory_success (env : ProbeEnv) (url : String)
    (h : (speedTestMemory env url).2 = none) :
    (speedTestMemory env url).1
      = ⟨url, (env.body.length : Int),
          wrapInt64 (Int.tdiv env.endNano 1000000 - Int.tdiv env.startNano 1000000), env.now⟩ := by
  unfold speedTestMemory at h ⊢
  cases hd : env.doErr with
  | some e => simp [hd] at h
  | none =>
    cases hr : env.readErr with
    | some e => simp [hd, hr] at h
    | none => rfl

/-- C8, amended: when a run of the prober (with or without context) returns a nil
error, `Bytes` is the length of the body, hence `≥ 0`, and `Milliseconds` is the end
reading minus the start reading, both in whole milliseconds; it is `≥ 0` exactly when
the end reading in milliseconds is not below the start reading, in particular whenever
the clock did not go backwards between the two readings. -/
theorem prober_success (env : ProbeEnv) (url : String)
    (hs : isInt64 env.startNano) (he : isInt64 env.endNano) :
    ((speedTestMemoryWithContext env url).2 = none →
        (speedTestMemoryWithContext env url).1.Bytes = (env.body.length : Int)
        ∧ 0 ≤ (speedTestMemoryWithContext env url).1.Bytes
        ∧ (speedTestMemoryWithContext env url).1.Milliseconds
            = Int.tdiv env.endNano 1000000 - Int.tdiv env.startNano 1000000
        ∧ (0 ≤ (speedTestMemoryWithContext env url).1.Milliseconds
            ↔ Int.tdiv env.startNano 1000000 ≤ Int.tdiv env.endNano 1000000)
        ∧ (env.startNano ≤ env.endNano →
            0 ≤ (speedTestMemoryWithContext env url).1.Milliseconds))
    ∧ ((speedTestMemory env url).2 = none →
        (speedTestMemory env url).1.Bytes = (env.body.length : Int)
        ∧ 0 ≤ (speedTestMemory env url).1.Bytes
        ∧ (speedTestMemory env url).1.Milliseconds
            = Int.tdiv env.endNano 1000000 - Int.tdiv env.startNano 1000000
        ∧ (0 ≤ (speedTestMemory env url).1.Milliseconds
            ↔ Int.tdiv env.startNano 1000000 ≤ Int.tdiv env.endNano 1000000)
        ∧ (env.startNano ≤ env.endNano → 0 ≤ (speedTestMemory env url).1.Milliseconds)) := by
  have hw := elapsed_in_range env.startNano env.endNano hs he
  constructor
  · intro h
    rw [withContext_success env url h]
    rw [hw]
    refine ⟨rfl, Int.ofNat_nonneg _, rfl, ?_, ?_⟩
    · show 0 ≤ Int.tdiv env.endNano 1000000 - Int.tdiv env.startNano 1000000 ↔ _
      omega
    · intro hle
      have := tdiv_million_mono _ _ hle
      show 0 ≤ Int.tdiv env.endNano 1000000 - Int.tdiv env.startNano 1000000
      omega
  · intro h
    rw [memory_success env url h]
    rw [hw]
    refine ⟨rfl, Int.ofNat_nonneg _, rfl, ?_, ?_⟩
    · show 0 ≤ Int.tdiv env.endNano 1000000 - Int.tdiv env.startNano 1000000 ↔ _
      omega
    · intro hle
      have := tdiv_million_mono _ _ hle
      show 0 ≤ Int.tdiv env.endNano 1000000 - Int.tdiv env.startNano 1000000
      omega

/-- Witness of the amended C8 on a run of two seconds. -/
theorem prober_success_witness :
    isInt64 plainRun.startNano ∧ isInt64 plainRun.endNano
    ∧ (speedTestMemoryWithContext plainRun fileURL).2 = none
    ∧ (speedTestMemoryWithContext plainRun fileURL).1.Milliseconds
        = Int.tdiv plainRun.endNano 1000000 - Int.tdiv plainRun.startNano 1000000 :=
  ⟨by unfold isInt64; decide, by unfold isInt64; decide, rfl,
   ((prober_success plainRun fileURL (by unfold isInt64; decide)
      (by unfold isInt64; decide)).1 rfl).2.2.1⟩

/-- C8 fails as stated: with a start reading of 5000 ms and an end reading of 1000 ms
both probers return a nil error and `Milliseconds = -4000`. -/
theorem prober_negative_elapsed :
    (speedTestMemoryWithContext clockSetBack fileURL).2 = none
    ∧ (speedTestMemoryWithContext clockSetBack fileURL).1.Milliseconds = -4000
    ∧ ¬ (0 ≤ (speedTestMemoryWithContext clockSetBack fileURL).1.Milliseconds)
    ∧ (speedTestMemory clockSetBack fileURL).2 = none
    ∧ (speedTestMemory clockSetBack fileURL).1.Milliseconds = -4000
    ∧ ¬ (0 ≤ (speedTestMemory clockSetBack fileURL).1.Milliseconds) := by
  decide

/-- C10, amended: on every path of either prober the two fields are set together: a
non-nil error comes with `Bytes = -1` and `Milliseconds = -1` (request failure,
deadline exceeded, body-read failure, in this order of precedence), and a nil error
comes with `Bytes` the length of the body and `Milliseconds` the difference of the two
readings; when the end reading is not earlier than the start reading the two fields
are therefore both `-1` or both non-negative. -/
theorem prober_fields (env : ProbeEnv) (url : String)
    (hs : isInt64 env.startNano) (he : isInt64 env.endNano) :
    ((speedTestMemoryWithContext env url).2
        = (env.doErr.orElse fun _ => env.ctxErr.orElse fun _ => env.readErr))
    ∧ ((speedTestMemoryWithContext env url).2 ≠ none →
        (speedTestMemoryWithContext env url).1.Bytes = -1
        ∧ (speedTestMemoryWithContext env url).1.Milliseconds = -1)
    ∧ ((speedTestMemoryWithContext env url).2 = none →
        (speedTestMemoryWithContext env url).1.Bytes = (env.body.length : Int)
        ∧ (speedTestMemoryWithContext env url).1.Milliseconds
            = Int.tdiv env.endNano 1000000 - Int.tdiv env.startNano 1000000)
    ∧ (env.startNano ≤ env.endNano →
        ((speedTestMemoryWithContext env url).1.Bytes = -1
          ∧ (speedTestMemoryWithContext env url).1.Milliseconds = -1)
        ∨ (0 ≤ (speedTestMemoryWithContext env url).1.Bytes
          ∧ 0 ≤ (speedTestMemoryWithContext env url).1.Milliseconds))
    ∧ ((speedTestMemory env url).2 = (env.doErr.orElse fun _ => env.readErr))
    ∧ ((speedTestMemory env url).2 ≠ none →
        (speedTestMemory env url).1.Bytes = -1
        ∧ (speedTestMemory env url).1.Milliseconds = -1)
    ∧ ((speedTestMemory env url).2 = none →
        (speedTestMemory env url).1.Bytes = (env.body.length : Int)
        ∧ (speedTestMemory env url).1.Milliseconds
            = Int.tdiv env.endNano 1000000 - Int.tdiv env.startNano 1000000)
    ∧ (env.startNano ≤ env.endNano →
        ((speedTestMemory env url).1.Bytes = -1
          ∧ (speedTestMemory env url).1.Milliseconds = -1)
        ∨ (0 ≤ (speedTestMemory env url).1.Bytes
          ∧ 0 ≤ (speedTestMemory env url).1.Milliseconds)) := by
  have hw := elapsed_in_range env.startNano env.endNano hs he
  have hmono := tdiv_million_mono env.startNano env.endNano
  have c1 : (speedTestMemoryWithContext env url).2
      = (env.doErr.orElse fun _ => env.ctxErr.orElse fun _ => env.readErr) := by
    unfold speedTestMemoryWithContext
    cases env.doErr <;> cases env.ctxErr <;> cases env.readErr <;> rfl
  have c2 : (speedTestMemoryWithContext env url).2 ≠ none →
      (speedTestMemoryWithContext env url).1.Bytes = -1
      ∧ (speedTestMemoryWithContext env url).1.Milliseconds = -1 := by
    intro h
    rw [withContext_error env url h]
    exact ⟨rfl, rfl⟩
  have c3 : (speedTestMemoryWithContext env url).2 = none →
      (speedTestMemoryWithContext env url).1.Bytes = (env.body.length : Int)
      ∧ (speedTestMemoryWithContext env url).1.Milliseconds
          = Int.tdiv env.endNano 1000000 - Int.tdiv env.startNano 1000000 := by
    intro h
    rw [withContext_success env url h, hw]
    exact ⟨rfl, rfl⟩
  have d1 : (speedTestMemory env url).2 = (env.doErr.orElse fun _ => env.readErr) := by
    unfold speedTestMemory
    cases env.doErr <;> cases env.readErr <;> rfl
  have d2 : (speedTestMemory env url).2 ≠ none →
      (speedTestMemory env url).1.Bytes = -1
      ∧ (speedTestMemory env url).1.Milliseconds = -1 := by
    intro h
    rw [memory_error env url h]
    exact ⟨rfl, rfl⟩
  have d3 : (speedTestMemory env url).2 = none →
      (speedTestMemory env url).1.Bytes = (env.body.length : Int)
      ∧ (speedTestMemory env url).1.Milliseconds
          = Int.tdiv env.endNano 1000000 - Int.tdiv env.startNano 1000000 := by
    intro h
    rw [memory_success env url h, hw]
    exact ⟨rfl, rfl⟩
  refine ⟨c1, c2, c3, ?_, d1, d2, d3, ?_⟩
  · intro hle
    have hm := hmono hle
    by_cases h : (speedTestMemoryWithContext env url).2 = none
    · right
      obtain ⟨hb, hms⟩ := c3 h
      rw [hb, hms]
      exact ⟨Int.ofNat_nonneg _, by omega⟩
    · left; exact c2 h
  · intro hle
    have hm := hmono hle
    by_cases h : (speedTestMemory env url).2 = none
    · right
      obtain ⟨hb, hms⟩ := d3 h
      rw [hb, hms]
      exact ⟨Int.ofNat_nonneg _, by omega⟩
    · left; exact d2 h

/-- Witness of the amended C10 on a run that hits the deadline. -/
theorem prober_fields_witness :
    isInt64 deadlineRun.startNano ∧ isInt64 deadlineRun.endNano
    ∧ (speedTestMemoryWithContext deadlineRun fileURL).2 ≠ none
    ∧ (speedTestMemoryWithContext deadlineRun fileURL).1.Bytes = -1
    ∧ (speedTestMemoryWithContext deadlineRun fileURL).1.Milliseconds = -1 :=
  ⟨by unfold isInt64; decide, by unfold isInt64; decide, by decide,
   (prober_fields deadlineRun fileURL (by unfold isInt64; decide)
      (by unfold isInt64; decide)).2.1 (by decide)⟩

/-- C10 fails as stated: with an end reading one millisecond before the start reading
the prober returns a nil error with `Bytes = 3` and `Milliseconds = -1`, which is
neither the pair of sentinels nor a pair of non-negative values. -/
theorem prober_mixed_fields :
    (speedTestMemoryWithContext clockOneBack fileURL).2 = none
    ∧ (speedTestMemoryWithContext clockOneBack fileURL).1.Bytes = 3
    ∧ (speedTestMemoryWithContext clockOneBack fileURL).1.Milliseconds = -1
    ∧ ¬ (((speedTestMemoryWithContext clockOneBack fileURL).1.Bytes = -1
            ∧ (speedTestMemoryWithContext clockOneBack fileURL).1.Milliseconds = -1)
          ∨ (0 ≤ (speedTestMemoryWithContext clockOneBack fileURL).1.Bytes
            ∧ 0 ≤ (speedTestMemoryWithContext clockOneBack fileURL).1.Milliseconds)) := by
  decide

/-! ## Claims on the entry point -/

/-- C9: if the prober returns an error, `main` only prints it: `writeData` is not
called (no file is opened or written) and every file, `speedtest.csv` included, is
as before; if the prober succeeds and `writeData` succeeds, `speedtest.csv` is its
prior content followed by the one row of the measurement, one row more than before,
and no other file changes. -/
theorem main_rows (env : ProbeEnv) (sys : FileCalls) (w : World) :
    (∀ e, (speedTestMemoryWithContext env fileURL).2 = some e →
        (main env sys w).files = w.files
        ∧ (main env sys w).trace = w.trace ++ [Event.println e.msg])
    ∧ ((speedTestMemoryWithContext env fileURL).2 = none →
        (writeData sys w "speedtest.csv" (speedTestMemoryWithContext env fileURL).1).2 = none →
        (main env sys w).files "speedtest.csv"
            = some ((w.files "speedtest.csv").getD []
                ++ csvLine (speedTestMemoryWithContext env fileURL).1)
        ∧ rowCount (((main env sys w).files "speedtest.csv").getD [])
            = rowCount ((w.files "speedtest.csv").getD []) + 1
        ∧ (∀ other, other ≠ "speedtest.csv" → (main env sys w).files other = w.files other)
        ∧ (main env sys w).trace
            = w.trace ++ [Event.openFile "speedtest.csv",
                Event.writeString "speedtest.csv"
                  (csvLine (speedTestMemoryWithContext env fileURL).1),
                Event.closeFile "speedtest.csv"]) := by
  constructor
  · intro e he
    cases hr : speedTestMemoryWithContext env fileURL with
    | mk data err =>
      rw [hr] at he
      simp only at he
      subst he
      simp [main, hr, World.log]
  · intro hp hwr
    cases hr : speedTestMemoryWithContext env fileURL with
    | mk data err =>
      rw [hr] at hp hwr
      simp only at hp hwr
      subst hp
      have hf := writeData_ok sys w "speedtest.csv" data hwr
      cases hwd : writeData sys w "speedtest.csv" data with
      | mk w1 e1 =>
        rw [hwd] at hwr hf
        simp only at hwr hf
        subst hwr
        have hm : main env sys w = w1 := by
          simp [main, hr, hwd]
        rw [hm, hf]
        refine ⟨by simp, ?_, ?_, ?_⟩
        · simp [rowCount_append, rowCount_csvLine]
        · intro other hne
          simp [hne]
        · unfold writeData at hwd
          cases ho : sys.openErr with
          | some e => simp [ho] at hwd
          | none =>
            cases hw2 : sys.writeErr with
            | some p => simp [ho, hw2] at hwd
            | none =>
              simp only [ho, hw2, Prod.mk.injEq, and_true] at hwd
              rw [← hwd]
              simp [World.log, World.setFile]

/-- Witness of C9: a run that hits the deadline leaves the files alone, and a run of
two seconds followed by a successful write leaves one row in `speedtest.csv`. -/
theorem main_rows_witness :
    (main deadlineRun ⟨none, none⟩ World.empty).files = World.empty.files
    ∧ rowCount (((main plainRun ⟨none, none⟩ World.empty).files "speedtest.csv").getD [])
        = rowCount ((World.empty.files "speedtest.csv").getD []) + 1 :=
  ⟨((main_rows deadlineRun ⟨none, none⟩ World.empty).1 _ rfl).1,
   ((main_rows plainRun ⟨none, none⟩ World.empty).2 rfl rfl).2.1⟩

end SpeedTest
